import Mathlib

/-!
Shallow embedding of the odds-acquisition and ticket-assembly engine of the
Telegram-Tickets repository (src/telegram_all_tips_ticket.py,
src/all_tips_ticket.py, src/main.py), together with theorems settling the
frozen claims about it.

Conventions of the embedding:
* Python `float` prices (decimal odds) are modelled as `ℚ`; all concrete
  inputs in counterexamples use values whose float arithmetic is exact or
  far from every compared threshold, so the `ℚ` results agree with the
  Python ones.
* Python `dict`s (insertion ordered) are modelled as association lists;
  `d[k] = v` replaces the binding in place or appends a new one at the end,
  exactly like CPython's ordered dicts.
* Python's stable `sorted` is modelled with the stable `List.insertionSort`.
* Fallible float parsing (`_try_float`) acts on an already-parsed optional
  rational: a raw value that is absent parses to `none`, and non-positive
  values are rejected, as in the source.
-/

set_option allowUnsafeReducibility true in
attribute [semireducible] Rat.mul Rat.div Rat.inv Rat.add Rat.sub Rat.neg

namespace TicketSpec

/-! ## Python string primitives used by the source -/

/-- Model of Python's substring test `needle in hay` restricted to the
prefix position: `leadsWith hay needle` is true when `needle` occurs at the
start of `hay`. -/
def leadsWith : List Char → List Char → Bool
  | _, [] => true
  | [], _ :: _ => false
  | a :: as, b :: bs => a = b && leadsWith as bs

/-- Model of Python's `needle in hay` over character lists. -/
def hasSub : List Char → List Char → Bool
  | [], nd => nd.isEmpty
  | c :: t, nd => leadsWith (c :: t) nd || hasSub t nd

/-- Python `needle in hay` on strings. -/
def pyIn (needle hay : String) : Bool := hasSub hay.data needle.data

/-- Word characters for the `\b` boundaries of the source's regexes. -/
def isWordChar (c : Char) : Bool := c.isAlphanum || c = '_'

/-- Matches the regex fragment `0\.5\b` at the head of the list. -/
def match05 : List Char → Bool
  | '0' :: '.' :: '5' :: rest =>
    match rest with
    | [] => true
    | c :: _ => !isWordChar c
  | _ => false

/-- After the literal `over`, skip `\s*` and then require `0\.5\b`. -/
def afterOver : List Char → Bool
  | [] => false
  | c :: rest => if c.isWhitespace then afterOver rest else match05 (c :: rest)

/-- Matches `over\s*0\.5\b` at the head of the (lowercased) list. -/
def matchOver05 : List Char → Bool
  | 'o' :: 'v' :: 'e' :: 'r' :: rest => afterOver rest
  | _ => false

/-- Scans for `\bover\s*0\.5\b`; `prevWord` records whether the previous
character was a word character (for the leading `\b`). -/
def scanOver05 (prevWord : Bool) : List Char → Bool
  | [] => false
  | c :: rest =>
    (!prevWord && matchOver05 (c :: rest)) || scanOver05 (isWordChar c) rest

/-- Model of `_is_over05`: `re.search(r"(?i)\bover\s*0\.5\b", val)`. -/
def is_over05 (s : String) : Bool := scanOver05 false s.toLower.data

/-- Consume a literal word from the head of the list, returning the rest. -/
def dropLit : List Char → List Char → Option (List Char)
  | rest, [] => some rest
  | [], _ :: _ => none
  | a :: as, b :: bs => if a = b then dropLit as bs else none

/-- Matches word `w` at the head followed by a `\b` boundary. -/
def matchWordHere (w : List Char) (l : List Char) : Bool :=
  match dropLit l w with
  | none => false
  | some [] => true
  | some (c :: _) => !isWordChar c

/-- Scans for `\bw\b` in the list. -/
def scanWord (w : List Char) (prevWord : Bool) : List Char → Bool
  | [] => false
  | c :: rest =>
    (!prevWord && matchWordHere w (c :: rest)) || scanWord w (isWordChar c) rest

/-- Model of `_mentions_home`: `re.search(r"(?i)\bhome\b", val)`. -/
def mentions_home (s : String) : Bool := scanWord "home".data false s.toLower.data

/-- Model of `_mentions_away`: `re.search(r"(?i)\baway\b", val)`. -/
def mentions_away (s : String) : Bool := scanWord "away".data false s.toLower.data

/-- Python's `str.title()` for the ASCII strings of this code base: a cased
character starting a run of cased characters is uppercased, the rest of the
run lowercased. -/
def pyTitleGo : Bool → List Char → List Char
  | _, [] => []
  | prevCased, c :: rest =>
    if c.isAlpha then
      (if prevCased then c.toLower else c.toUpper) :: pyTitleGo true rest
    else
      c :: pyTitleGo false rest

/-- Python `s.title()`. -/
def pyTitle (s : String) : String := ⟨pyTitleGo false s.data⟩

/-- Python `re.sub(r"\s+", " ", s)`: collapse whitespace runs to one space.
The flag records whether the previous character was whitespace. -/
def collapseWsGo : Bool → List Char → List Char
  | _, [] => []
  | prevWs, c :: rest =>
    if c.isWhitespace then
      if prevWs then collapseWsGo true rest else ' ' :: collapseWsGo true rest
    else c :: collapseWsGo false rest

/-- Collapse whitespace runs in a string to single spaces. -/
def collapseWs (s : String) : String := ⟨collapseWsGo false s.data⟩

/-- Python `s.replace(old, new)`, replacing every occurrence left to right.
The fuel argument (instantiated with the input length) only drives the
structural recursion; it never runs out, since every step consumes at least
one input character. -/
def pyReplaceGo (old new : List Char) : Nat → List Char → List Char
  | _, [] => []
  | 0, l => l
  | fuel + 1, c :: rest =>
    if old ≠ [] ∧ leadsWith (c :: rest) old then
      new ++ pyReplaceGo old new fuel (rest.drop (old.length - 1))
    else c :: pyReplaceGo old new fuel rest

/-- Python `s.replace(old, new)`. -/
def pyReplace (s old new : String) : String :=
  ⟨pyReplaceGo old.data new.data s.data.length s.data⟩

/-- Python `s.replace(" ", "")` as used for Double-Chance labels. -/
def removeSpaces (s : String) : String := ⟨s.data.filter (· ≠ ' ')⟩

/-- Model of `_try_float`: the raw field is an already-parsed optional
rational; non-positive values are rejected (`return v if v>0 else None`). -/
def tryFloat (x : Option ℚ) : Option ℚ :=
  x.bind fun v => if v > 0 then some v else none

/-! ## Ordered-dict association lists -/

/-- `d.get(k)` on an insertion-ordered dict. -/
def lookupA {α β : Type} [DecidableEq α] : List (α × β) → α → Option β
  | [], _ => none
  | (k, v) :: t, k' => if k = k' then some v else lookupA t k'

/-- `d[k] = v` on an insertion-ordered dict: replace in place, or append. -/
def setA {α β : Type} [DecidableEq α] : List (α × β) → α → β → List (α × β)
  | [], k, v => [(k, v)]
  | (k0, v0) :: t, k, v =>
    if k0 = k then (k, v) :: t else (k0, v0) :: setA t k v

/-- ASCII lowercase of a Python string (`str.lower()`). -/
def pyLower (s : String) : String := ⟨s.data.map Char.toLower⟩

/-- ASCII uppercase of a Python string (`str.upper()`). -/
def pyUpper (s : String) : String := ⟨s.data.map Char.toUpper⟩

/-- Python `str.strip()`: remove leading and trailing whitespace. -/
def pyStrip (s : String) : String :=
  ⟨((s.data.dropWhile Char.isWhitespace).reverse.dropWhile
      Char.isWhitespace).reverse⟩

/-! ## Raw odds payloads

The provider returns two shapes (telegram_all_tips_ticket.py lines 164-191):
shape A `bookmakers[].bets[].values[]` and shape B
`bookmakers[].markets[].outcomes[]`.  A raw odd value is modelled as the
optional rational the corresponding JSON number or numeric string denotes
(absent or null fields are `none`). -/

/-- One entry of `markets[].outcomes[]` (newer shape). -/
structure RawOutcome where
  name : String
  price : Option ℚ
  odd : Option ℚ
  deriving DecidableEq

/-- One entry of `bookmakers[].markets[]` (newer shape). -/
structure RawMarket where
  name : String
  outcomes : List RawOutcome
  deriving DecidableEq

/-- One entry of `bets[].values[]` (older shape). -/
structure RawValue where
  value : String
  odd : Option ℚ
  deriving DecidableEq

/-- One entry of `bookmakers[].bets[]` (older shape). -/
structure RawBet where
  name : String
  values : List RawValue
  deriving DecidableEq

/-- A bookmaker record, carrying both possible shapes. -/
structure RawBookmaker where
  markets : List RawMarket
  bets : List RawBet
  deriving DecidableEq

/-- One item of the odds `response` array; `fixtureId` is
`(it.get("fixture") or {}).get("id") or (...).get("fixture")` and `none`
models a missing/falsy id (the source also treats `0` as falsy). -/
structure RawItem where
  fixtureId : Option Nat
  bookmakers : List RawBookmaker
  deriving DecidableEq

/-- Per-fixture odds table: `market_name -> outcome_name -> max_odd`. -/
abbrev Market := List (String × ℚ)

/-- `fixture_id -> market_name -> outcome_name -> max_odd`. -/
abbrev Slot := List (String × Market)

/-- The full multi-fixture odds table. -/
abbrev OddsTable := List (Nat × Slot)

/-! ## Market configuration (telegram_all_tips_ticket.py lines 135-195) -/

/-- `FORBIDDEN_SUBSTRS`. -/
def FORBIDDEN_SUBSTRS : List String :=
  ["asian", "alternative", "corners", "cards", "booking", "penalties",
   "penalty", "offside", "throw in", "interval", "race to", "period",
   "quarter", "draw no bet", "dnb", "to qualify", "method of victory",
   "overtime", "extra time", "win to nil", "clean sheet", "anytime",
   "player", "scorer"]

/-- `OU_EQUIV` in its insertion order. -/
def OU_EQUIV : List (String × String) :=
  [("Over1.5", "Over 1.5"), ("Under3.5", "Under 3.5"), ("Over2.5", "Over 2.5")]

/-- `DOC_MARKETS["match_winner"]`. -/
def MW_NAMES : List String :=
  ["Match Winner", "1X2", "Full Time Result", "Result"]

/-- `DOC_MARKETS["double_chance"]`. -/
def DC_NAMES : List String := ["Double Chance", "Double chance"]

/-- `DOC_MARKETS["btts"]`. -/
def BTTS_NAMES : List String :=
  ["Both Teams To Score", "Both teams to score", "BTTS", "Both Teams Score"]

/-- `DOC_MARKETS["ou"]`. -/
def OU_NAMES : List String :=
  ["Goals Over/Under", "Over/Under", "Total Goals", "Total",
   "Goals Over Under", "Total Goals Over/Under"]

/-- `DOC_MARKETS["ou_1st"]`. -/
def OU1ST_NAMES : List String :=
  ["1st Half - Over/Under", "1st Half Goals Over/Under",
   "First Half - Over/Under", "Over/Under - 1st Half", "First Half Goals",
   "Goals Over/Under - 1st Half"]

/-- `DOC_MARKETS["ttg_home"]`. -/
def TTG_HOME_NAMES : List String :=
  ["Home Team Total Goals", "Home Team Goals", "Home Team - Total Goals",
   "Home Total Goals"]

/-- `DOC_MARKETS["ttg_away"]` (the set literal repeats "Away Team Goals";
as a set it has these three elements). -/
def TTG_AWAY_NAMES : List String :=
  ["Away Team Total Goals", "Away Team Goals", "Away Team - Total Goals"]

/-- `DOC_MARKETS["ttg_generic"]`. -/
def TTG_GENERIC_NAMES : List String :=
  ["Team Total Goals", "Total Team Goals", "Team Goals"]

/-- Model of `_is_fulltime_main`: no forbidden substring occurs in the
lowercased name. -/
def is_fulltime_main (name : String) : Bool :=
  !(FORBIDDEN_SUBSTRS.any fun b => pyIn b (pyLower name))

/-- Model of `_norm_ou_value`: strip, title-case, fold `OU_EQUIV`
synonyms, collapse whitespace. -/
def norm_ou_value (v : String) : String :=
  collapseWs (OU_EQUIV.foldl (fun s kr => pyReplace s kr.1 kr.2)
    (pyTitle (pyStrip v)))

/-! ## Odds normalization: model of `_collect_odds_table` (lines 219-344) -/

/-- The raw odd of an outcome entry:
`oc.get("price") if oc.get("price") is not None else oc.get("odd")`. -/
def outcomeOdd (oc : RawOutcome) : Option ℚ :=
  match oc.price with
  | some p => some p
  | none => oc.odd

/-- Newer shape, the update for one outcome entry
(`if name and (name not in dst or v > dst[name]): dst[name] = v`). -/
def stepOutcome (d : Market) (oc : RawOutcome) : Market :=
  let name := pyStrip oc.name
  match tryFloat (outcomeOdd oc) with
  | none => d
  | some v =>
    if name = "" then d
    else
      match lookupA d name with
      | none => setA d name v
      | some w => if v > w then setA d name v else d

/-- Newer shape, inner loop over `m.get("outcomes")`. -/
def foldOutcomes (os : List RawOutcome) (dst : Market) : Market :=
  os.foldl stepOutcome dst


/-- Newer shape, one `markets[]` entry: `dst = slot.setdefault(mkt, {})`
followed by the outcome loop. No market-name filtering happens here. -/
def processMarket (slot : Slot) (m : RawMarket) : Slot :=
  let mkt := pyStrip m.name
  if mkt = "" then slot
  else setA slot mkt (foldOutcomes m.outcomes ((lookupA slot mkt).getD []))

/-- Older shape, `ou_1st` branch: store `Over 0.5` under `1st Half Goals`,
keeping the larger odd. -/
def processOu1st (slot : Slot) (values : List RawValue) : Slot :=
  let dst := (lookupA slot "1st Half Goals").getD []
  let dst' := values.foldl (fun d val =>
    if is_over05 val.value then
      match tryFloat val.odd with
      | some v =>
        match lookupA d "Over 0.5" with
        | none => setA d "Over 0.5" v
        | some prev => if v > prev then setA d "Over 0.5" v else d
      | none => d
    else d) dst
  setA slot "1st Half Goals" dst'

/-- Older shape, `Match Winner` branch. -/
def processMW (slot : Slot) (values : List RawValue) : Slot :=
  let dst := (lookupA slot "Match Winner").getD []
  let dst' := values.foldl (fun d val =>
    let nm := pyStrip val.value
    if nm = "Home" ∨ nm = "1" then
      match tryFloat val.odd with
      | some v => setA d "Home" (max ((lookupA d "Home").getD 0) v)
      | none => d
    else if nm = "Away" ∨ nm = "2" then
      match tryFloat val.odd with
      | some v => setA d "Away" (max ((lookupA d "Away").getD 0) v)
      | none => d
    else d) dst
  setA slot "Match Winner" dst'

/-- Older shape, `Double Chance` branch. -/
def processDC (slot : Slot) (values : List RawValue) : Slot :=
  let dst := (lookupA slot "Double Chance").getD []
  let dst' := values.foldl (fun d val =>
    let nm := pyUpper (removeSpaces val.value)
    if nm = "1X" ∨ nm = "X2" ∨ nm = "12" then
      match tryFloat val.odd with
      | some v => setA d nm (max ((lookupA d nm).getD 0) v)
      | none => d
    else d) dst
  setA slot "Double Chance" dst'

/-- Older shape, `Both Teams To Score` branch. -/
def processBTTS (slot : Slot) (values : List RawValue) : Slot :=
  let dst := (lookupA slot "Both Teams To Score").getD []
  let dst' := values.foldl (fun d val =>
    let nm := pyTitle (pyStrip val.value)
    if nm = "Yes" ∨ nm = "No" then
      match tryFloat val.odd with
      | some v => setA d nm (max ((lookupA d nm).getD 0) v)
      | none => d
    else d) dst
  setA slot "Both Teams To Score" dst'

/-- Older shape, full-time `Over/Under` branch. -/
def processOU (slot : Slot) (values : List RawValue) : Slot :=
  let dst := (lookupA slot "Over/Under").getD []
  let dst' := values.foldl (fun d val =>
    let nm := norm_ou_value val.value
    if nm = "Over 1.5" ∨ nm = "Under 3.5" ∨ nm = "Over 2.5" then
      match tryFloat val.odd with
      | some v => setA d nm (max ((lookupA d nm).getD 0) v)
      | none => d
    else d) dst
  setA slot "Over/Under" dst'

/-- Older shape, per-team total-goals branch (`Home Team Goals` or
`Away Team Goals`, fixed by `key`). -/
def processTTG (key : String) (slot : Slot) (values : List RawValue) : Slot :=
  let dst := (lookupA slot key).getD []
  let dst' := values.foldl (fun d val =>
    if is_over05 val.value then
      match tryFloat val.odd with
      | some v => setA d "Over 0.5" (max ((lookupA d "Over 0.5").getD 0) v)
      | none => d
    else d) dst
  setA slot key dst'

/-- Older shape, one value of the generic team-total branch: detect
Home/Away from the value string; `slot.setdefault` runs before the odd is
parsed, so the canonical key is created even when parsing fails. -/
def ttgStep (sl : Slot) (val : RawValue) : Slot :=
  let vv := pyStrip val.value
  if is_over05 vv then
    if mentions_home vv then
      let dst := (lookupA sl "Home Team Goals").getD []
      let sl1 := setA sl "Home Team Goals" dst
      match tryFloat val.odd with
      | some v =>
        setA sl1 "Home Team Goals"
          (setA dst "Over 0.5" (max ((lookupA dst "Over 0.5").getD 0) v))
      | none => sl1
    else if mentions_away vv then
      let dst := (lookupA sl "Away Team Goals").getD []
      let sl1 := setA sl "Away Team Goals" dst
      match tryFloat val.odd with
      | some v =>
        setA sl1 "Away Team Goals"
          (setA dst "Over 0.5" (max ((lookupA dst "Over 0.5").getD 0) v))
      | none => sl1
    else sl
  else sl

/-- Older shape, generic team-total branch. -/
def processTTGGeneric (slot : Slot) (values : List RawValue) : Slot :=
  values.foldl ttgStep slot

/-- Older shape, one `bets[]` entry: the dispatch chain of lines 249-342.
The `ou_1st` test runs before the forbidden-substring filter, exactly as in
the source. -/
def processBet (slot : Slot) (bet : RawBet) : Slot :=
  let raw := pyStrip bet.name
  if raw = "" then slot
  else if raw ∈ OU1ST_NAMES then processOu1st slot bet.values
  else if ¬ is_fulltime_main raw then slot
  else if raw ∈ MW_NAMES then processMW slot bet.values
  else if raw ∈ DC_NAMES then processDC slot bet.values
  else if raw ∈ BTTS_NAMES then processBTTS slot bet.values
  else if raw ∈ OU_NAMES then processOU slot bet.values
  else if raw ∈ TTG_HOME_NAMES then processTTG "Home Team Goals" slot bet.values
  else if raw ∈ TTG_AWAY_NAMES then processTTG "Away Team Goals" slot bet.values
  else if raw ∈ TTG_GENERIC_NAMES then processTTGGeneric slot bet.values
  else slot

/-- One bookmaker: the newer `markets` loop, then the older `bets` loop. -/
def processBookmaker (slot : Slot) (bm : RawBookmaker) : Slot :=
  bm.bets.foldl processBet (bm.markets.foldl processMarket slot)

/-- One item of `_collect_odds_table`'s loop: skip falsy fixture ids, else
fold the item's bookmakers into that fixture's slot. -/
def collectStep (out : OddsTable) (it : RawItem) : OddsTable :=
  match it.fixtureId with
  | none => out
  | some 0 => out
  | some fid =>
    let slot := (lookupA out fid).getD []
    let slot' := it.bookmakers.foldl processBookmaker slot
    setA out fid slot'

/-- Model of `_collect_odds_table`: fold the items into the table. -/
def collect_odds_table (items : List RawItem) : OddsTable :=
  items.foldl collectStep []

end TicketSpec

namespace TicketSpec

/-! ## Model of `_min_odd_in_bet` (all_tips_ticket.py lines 80-98)

Unlike the telegram collector, this one keeps the *minimum* odd per label
(`if label not in out or odd < out[label]: out[label] = odd`); a missing or
unparsable odd is `float(v.get("odd") or 0)`, i.e. `0`, and skipped. -/
def min_odd_in_bet (odds_resp : List RawItem) (bet_name : String) : Market :=
  odds_resp.foldl (fun out item =>
    item.bookmakers.foldl (fun out bm =>
      bm.bets.foldl (fun out bet =>
        if bet.name ≠ bet_name then out
        else
          bet.values.foldl (fun out v =>
            let label := pyStrip v.value
            let odd := v.odd.getD 0
            if odd ≤ 0 then out
            else
              match lookupA out label with
              | none => setA out label odd
              | some w => if odd < w then setA out label odd else out)
            out) out) out) []

/-! ## Band / cap rule tables (telegram_all_tips_ticket.py lines 135-162).
Decimal constants appear as `mkRat n 100`, e.g. `mkRat 145 100` is 1.45. -/

/-- `MARKET_BANDS`, in dict insertion order. -/
def MARKET_BANDS : List ((String × String) × (ℚ × ℚ)) :=
  [(("Double Chance", "1X"), (mkRat 120 100, mkRat 145 100)),
   (("Double Chance", "X2"), (mkRat 120 100, mkRat 145 100)),
   (("Over/Under", "Over 1.5"), (mkRat 120 100, mkRat 155 100)),
   (("Over/Under", "Under 3.5"), (mkRat 120 100, mkRat 160 100)),
   (("Over/Under", "Over 2.5"), (mkRat 160 100, mkRat 220 100)),
   (("Both Teams To Score", "Yes"), (mkRat 155 100, mkRat 205 100)),
   (("Match Winner", "Home"), (mkRat 135 100, mkRat 180 100)),
   (("Match Winner", "Away"), (mkRat 140 100, mkRat 190 100))]

/-- `RELAXED_BANDS = {k: (max(1.10, lo - 0.05), hi + 0.25) ...}`. -/
def RELAXED_BANDS : List ((String × String) × (ℚ × ℚ)) :=
  MARKET_BANDS.map fun e =>
    (e.1, (max (mkRat 110 100) (e.2.1 - mkRat 5 100), e.2.2 + mkRat 25 100))

/-- `ALLOW_ALL_CAPS_HARD`. -/
def ALLOW_ALL_CAPS_HARD : List ((String × String) × ℚ) :=
  [(("1st Half Goals", "Over 0.5"), mkRat 135 100),
   (("Home Team Goals", "Over 0.5"), mkRat 120 100),
   (("Away Team Goals", "Over 0.5"), mkRat 125 100)]

/-- `ALLOW_ALL_CAPS_RELAX`. -/
def ALLOW_ALL_CAPS_RELAX : List ((String × String) × ℚ) :=
  [(("1st Half Goals", "Over 0.5"), mkRat 140 100),
   (("Home Team Goals", "Over 0.5"), mkRat 125 100),
   (("Away Team Goals", "Over 0.5"), mkRat 130 100)]

/-- `MIN_T2_TOTAL = 1.85`. -/
def MIN_T2_TOTAL : ℚ := mkRat 185 100

/-! ## Candidate selection (lines 428-452) -/

/-- A `(market, outcome, price)` triple as returned by the pickers. -/
abbrev Pick := String × String × ℚ

/-- `(odds_map.get(mkt) or {}).get(name)`. -/
def lookup2 (m : Slot) (mkt name : String) : Option ℚ :=
  lookupA ((lookupA m mkt).getD []) name

/-- Model of `_pick_in_band`: accept iff `lo <= v <= hi` (inclusive). -/
def pick_in_band (m : Slot) (mkt name : String) (lo hi : ℚ) : Option Pick :=
  match lookup2 m mkt name with
  | none => none
  | some v => if lo ≤ v ∧ v ≤ hi then some (mkt, name, v) else none

/-- The `best, best_odd` update common to both pickers:
`if p and p[2] > best_odd: best, best_odd = p, p[2]`. -/
def selStep (st : Option Pick × ℚ) (c : Option Pick) : Option Pick × ℚ :=
  match c with
  | some p => if p.2.2 > st.2 then (some p, p.2.2) else st
  | none => st

/-- Model of `_best_from_bands` (`best=None; best_odd=0.0` fold). -/
def best_from_bands (m : Slot)
    (bands : List ((String × String) × (ℚ × ℚ))) : Option Pick :=
  (bands.foldl
    (fun st e => selStep st (pick_in_band m e.1.1 e.1.2 e.2.1 e.2.2))
    (none, 0)).1

/-- Model of `_best_from_caps`: accept iff `v <= cap`, keep the largest. -/
def best_from_caps (m : Slot)
    (caps : List ((String × String) × ℚ)) : Option Pick :=
  (caps.foldl
    (fun st e =>
      match lookup2 m e.1.1 e.1.2 with
      | none => st
      | some v =>
        if v ≤ e.2 ∧ v > st.2 then (some (e.1.1, e.1.2, v), v) else st)
    ((none : Option Pick), (0 : ℚ))).1

/-! ## Ticket assembly (telegram_all_tips_ticket.py lines 455-621)

The fetch layer is abstracted into pure in-run views: `fixtures` stands for
the list `fixtures_by_date(date_str)` returns, and `oddsOf fid` for the
per-fixture table `odds_by_fixture(fid, date_str)` returns. -/

/-- The fixture fields the assembly logic reads. -/
structure Fixture where
  fid : Nat
  leagueId : Nat
  deriving DecidableEq

/-- Model of a `_ticket_line` leg: we keep the fields the algorithm reads
(`fid`, `odd`) plus the chosen market and outcome; the remaining fields of
the Python dict are rendering-only functions of the fixture. -/
structure Leg where
  fid : Nat
  market : String
  pickName : String
  odd : ℚ
  deriving DecidableEq

/-- Model of `_ticket_line`. -/
def ticket_line (f : Fixture) (p : Pick) : Leg := ⟨f.fid, p.1, p.2.1, p.2.2⟩

/-- Python's stable `sorted(pool, key=lambda L: L["odd"], reverse=True)`. -/
def sortPoolDesc (pool : List Leg) : List Leg :=
  List.insertionSort (fun a b => b.odd ≤ a.odd) pool

/-- Python's stable `sorted(pool, key=lambda L: L["odd"])`. -/
def sortPoolAsc (pool : List Leg) : List Leg :=
  List.insertionSort (fun a b => a.odd ≤ b.odd) pool

/-- The candidate pool of `assemble_ticket1` (lines 457-502): tier 1 scans
the allow-list fixtures with `MARKET_BANDS`; when the pool is still short
of `LEGS_MIN`, tier 2 re-scans the same allow fixtures with
`RELAXED_BANDS`, tier 3 scans the non-allow fixtures with `MARKET_BANDS`,
and tier 4 re-scans all fixtures with `RELAXED_BANDS`; each tier appends to
the pool already gathered. -/
def t1_pool (allowIds : List Nat) (legsMin : Nat) (oddsOf : Nat → Slot)
    (fixtures : List Fixture) : List Leg :=
  let allowFx := fixtures.filter fun f => f.leagueId ∈ allowIds
  let pool1 := allowFx.filterMap fun f =>
    (best_from_bands (oddsOf f.fid) MARKET_BANDS).map (ticket_line f)
  let pool2 :=
    if pool1.length < legsMin then
      pool1 ++ allowFx.filterMap fun f =>
        (best_from_bands (oddsOf f.fid) RELAXED_BANDS).map (ticket_line f)
    else pool1
  let pool3 :=
    if pool2.length < legsMin then
      pool2 ++ (fixtures.filter fun f => f ∉ allowFx).filterMap fun f =>
        (best_from_bands (oddsOf f.fid) MARKET_BANDS).map (ticket_line f)
    else pool2
  let pool4 :=
    if pool3.length < legsMin then
      pool3 ++ fixtures.filterMap fun f =>
        (best_from_bands (oddsOf f.fid) RELAXED_BANDS).map (ticket_line f)
    else pool3
  pool4

/-- The greedy accumulation loop shared by lines 508-516 (target 2.0) and
lines 568-574 (target `MIN_T2_TOTAL`): append legs in pool order, stop on
reaching `LEGS_MAX`, or once both the leg minimum and the target are met. -/
def greedyLoop (legsMin legsMax : Nat) (target : ℚ) :
    List Leg → List Leg → ℚ → List Leg × ℚ
  | [], ticket, total => (ticket, total)
  | leg :: rest, ticket, total =>
    if legsMax ≤ ticket.length then (ticket, total)
    else
      let ticket' := ticket ++ [leg]
      let total' := total * leg.odd
      if legsMin ≤ ticket'.length ∧ target ≤ total' then (ticket', total')
      else greedyLoop legsMin legsMax target rest ticket' total'

/-- Model of `assemble_ticket1`: the ticket (legs, total); an unbuilt ticket
is `([], 1)` (the source returns `{"legs": [], "total": 1.0, ...}`). The
emission check is only `len(ticket) < LEGS_MIN` — the 2.0 target is *not*
re-checked. -/
def assemble_ticket1 (allowIds : List Nat) (legsMin legsMax : Nat)
    (oddsOf : Nat → Slot) (fixtures : List Fixture) : List Leg × ℚ :=
  let pool := sortPoolDesc (t1_pool allowIds legsMin oddsOf fixtures)
  let r := greedyLoop legsMin legsMax 2 pool [] 1
  if r.1.length < legsMin then ([], 1) else r

/-- The candidate pool of `assemble_ticket2_allow_all` (lines 537-558):
hard caps over all fixtures, relaxed caps only when that yields nothing. -/
def t2_pool (oddsOf : Nat → Slot) (fixtures : List Fixture) : List Leg :=
  let poolHard := fixtures.filterMap fun f =>
    (best_from_caps (oddsOf f.fid) ALLOW_ALL_CAPS_HARD).map (ticket_line f)
  if poolHard.isEmpty then
    fixtures.filterMap fun f =>
      (best_from_caps (oddsOf f.fid) ALLOW_ALL_CAPS_RELAX).map (ticket_line f)
  else poolHard

/-- The corrective pass of lines 576-586: walk the pool in descending
order, skipping legs already on the ticket (dict equality). -/
def t2Fix (legsMin legsMax : Nat) (target : ℚ) :
    List Leg → List Leg → ℚ → List Leg × ℚ
  | [], ticket, total => (ticket, total)
  | leg :: rest, ticket, total =>
    if leg ∈ ticket then t2Fix legsMin legsMax target rest ticket total
    else if legsMax ≤ ticket.length then (ticket, total)
    else
      let ticket' := ticket ++ [leg]
      let total' := total * leg.odd
      if target ≤ total' ∧ legsMin ≤ ticket'.length then (ticket', total')
      else t2Fix legsMin legsMax target rest ticket' total'

/-- Lines 564-590 of `assemble_ticket2_allow_all`, given a non-empty
pool: the greedy ascending pass, then the corrective pass when short, then
the final emission check `total < MIN_T2_TOTAL or len(ticket) < LEGS_MIN`. -/
def t2_finish (legsMin legsMax : Nat) (pool : List Leg) : List Leg × ℚ :=
  let r1 := greedyLoop legsMin legsMax MIN_T2_TOTAL (sortPoolAsc pool) [] 1
  let r2 :=
    if r1.2 < MIN_T2_TOTAL ∨ r1.1.length < legsMin then
      t2Fix legsMin legsMax MIN_T2_TOTAL (sortPoolDesc pool) r1.1 r1.2
    else r1
  if r2.2 < MIN_T2_TOTAL ∨ r2.1.length < legsMin then ([], 1) else r2

/-- Model of `assemble_ticket2_allow_all` (lines 535-603): an unbuilt
ticket is `([], 1)`. -/
def assemble_ticket2_allow_all (legsMin legsMax : Nat) (oddsOf : Nat → Slot)
    (fixtures : List Fixture) : List Leg × ℚ :=
  let pool := t2_pool oddsOf fixtures
  if pool.isEmpty then ([], 1)
  else t2_finish legsMin legsMax pool

/-- Model of `build_tickets_and_reasoning` (lines 606-621): build both
tickets independently from the same day's data and keep the non-empty ones
(`tickets = [t for t in (t1, t2) if t.get("legs")]`). -/
def build_tickets_and_reasoning (allowIds : List Nat) (legsMin legsMax : Nat)
    (oddsOf : Nat → Slot) (fixtures : List Fixture) : List (List Leg × ℚ) :=
  let t1 := assemble_ticket1 allowIds legsMin legsMax oddsOf fixtures
  let t2 := assemble_ticket2_allow_all legsMin legsMax oddsOf fixtures
  [t1, t2].filter fun t => ¬ t.1.isEmpty

end TicketSpec

namespace TicketSpec

/-! ## all_tips_ticket.py: pick selection and ticket building -/

/-- The fixture fields `build_picks` reads (all_tips_ticket.py 101-144);
`fid = 0` models a falsy (missing) fixture id. -/
structure PFixture where
  fid : Nat
  leagueId : Nat
  statusShort : String
  deriving DecidableEq

/-- One candidate pick produced by `build_picks`; the `fixture`, `league`
and `teams` sub-dicts it carries are rendering-only, so we keep the
fixture id together with the algorithmic fields. -/
structure TipPick where
  fid : Nat
  market : String
  value : String
  odd : ℚ
  deriving DecidableEq

/-- `SKIP` of all_tips_ticket.py line 39. -/
def SKIP_STATUSES : List String :=
  ["FT", "AET", "PEN", "CANC", "ABD", "WO", "PST", "SUSP", "1H", "2H",
   "HT", "LIVE", "ET", "BT"]

/-- Python `a or b` on optional floats (`0.0` and `None` are falsy). -/
def pyOrQ (a b : Option ℚ) : Option ℚ :=
  match a with
  | some v => if v = 0 then b else some v
  | none => b

/-- Python `a or b` on dicts (an empty dict is falsy). -/
def pyOrM (a b : Market) : Market := if a.isEmpty then b else a

/-- Model of `build_picks`: for each usable fixture, add a Double-Chance
`1X` pick when `1X < X2` and a `1X2` Home pick when `Home < Away` and
`Home < HOME_ODD_MAX`; both rules can fire for the same fixture.
`oddsOf fid` stands for the response list of `fetch_odds(fid)`. -/
def build_picks (minOdd homeMax : ℚ) (allowLeagues : List Nat)
    (oddsOf : Nat → List RawItem) (fixtures : List PFixture) : List TipPick :=
  fixtures.foldl (fun picks f =>
    if ¬ allowLeagues.isEmpty ∧ f.leagueId ∉ allowLeagues then picks
    else if f.statusShort ∈ SKIP_STATUSES then picks
    else if f.fid = 0 then picks
    else
      let odds_resp := oddsOf f.fid
      if odds_resp.isEmpty then picks
      else
        let dc := min_odd_in_bet odds_resp "Double Chance"
        let odd1x := pyOrQ (lookupA dc "1X") (lookupA dc "Home/Draw")
        let oddx2 := pyOrQ (lookupA dc "X2") (lookupA dc "Draw/Away")
        let picks1 :=
          match odd1x, oddx2 with
          | some o1, some o2 =>
            if o1 ≠ 0 ∧ o2 ≠ 0 ∧ o1 < o2 ∧ minOdd ≤ o1 then
              picks ++ [⟨f.fid, "Double Chance", "1X", o1⟩]
            else picks
          | _, _ => picks
        let m1x2 := pyOrM (min_odd_in_bet odds_resp "Match Winner")
          (min_odd_in_bet odds_resp "1X2")
        let home := pyOrQ (lookupA m1x2 "Home") (lookupA m1x2 "1")
        let away := pyOrQ (lookupA m1x2 "Away") (lookupA m1x2 "2")
        match home, away with
        | some h, some a =>
          if h ≠ 0 ∧ a ≠ 0 ∧ h < a ∧ h < homeMax ∧ minOdd ≤ h then
            picks1 ++ [⟨f.fid, "1X2", "Home", h⟩]
          else picks1
        | _, _ => picks1) []

/-- The loop of `make_tickets` (all_tips_ticket.py 166-199) after the
initial `random.shuffle`: accumulate picks until the running product
reaches the target, emit, and reset; after the loop, flush the leftover
accumulator as a final ticket if the ticket cap was not reached. Each
emitted ticket is modelled by its list of legs (the rendered text is a
function of that list). -/
def makeTicketsGo (maxTickets : Nat) (target minOdd : ℚ) :
    List TipPick → List (List TipPick) → List TipPick → ℚ →
      List (List TipPick)
  | [], tickets, cur, _ =>
    if ¬ cur.isEmpty ∧ tickets.length < maxTickets then tickets ++ [cur]
    else tickets
  | p :: rest, tickets, cur, curTotal =>
    if maxTickets ≤ tickets.length then tickets
    else if p.odd < minOdd then
      makeTicketsGo maxTickets target minOdd rest tickets cur curTotal
    else if target ≤ curTotal * p.odd then
      makeTicketsGo maxTickets target minOdd rest (tickets ++ [cur ++ [p]])
        [] 1
    else
      makeTicketsGo maxTickets target minOdd rest tickets (cur ++ [p])
        (curTotal * p.odd)

/-- Model of one run of `make_tickets` given the pick order chosen by
`random.shuffle(picks)`: a run evaluates this on the RNG-chosen
permutation of its input list. -/
def make_tickets_run (maxTickets : Nat) (target minOdd : ℚ)
    (shuffled : List TipPick) : List (List TipPick) :=
  makeTicketsGo maxTickets target minOdd shuffled [] [] 1

/-! ## Fetch clients

Two `_get` implementations exist. The telegram variant
(telegram_all_tips_ticket.py 46-60) caches by
`"GET::{path}::{json.dumps(params, sort_keys=True)}"` and performs no
retry; the all_tips variant (all_tips_ticket.py 53-70) retries with capped
exponential backoff and keeps no cache. The network is modelled as an
oracle; params values are modelled as their string serialization. -/

/-- One network response: success payload, HTTP 429, or a transport error
(`httpx.HTTPError`). -/
inductive NetResult (α : Type) : Type
  | ok (v : α)
  | rate
  | err (e : String)
  deriving DecidableEq

/-- `json.dumps(params, sort_keys=True)` on string-valued params. -/
def dumpsSorted (params : List (String × String)) : String :=
  let sorted := List.insertionSort (fun a b : String × String => a.1 ≤ b.1)
    params
  "\x7b" ++ String.intercalate ", "
    (sorted.map fun kv => "\"" ++ kv.1 ++ "\": \"" ++ kv.2 ++ "\"") ++ "\x7d"

/-- The cache key of the telegram `_get`. -/
def cacheKey (path : String) (params : List (String × String)) : String :=
  "GET::" ++ path ++ "::" ++ dumpsSorted params

/-- State of the telegram fetch client: the process-wide `_http_cache`,
plus the log of network requests actually issued. -/
structure FetchState (α : Type) : Type where
  cache : List (String × α)
  calls : List String

/-- Model of the telegram `_get`: serve from cache when the key is
present; otherwise issue the request, raising immediately on a transport
error (`raise_for_status` — there is no retry loop), and cache only
successful payloads. -/
def tg_get (net : String → Except String α) (st : FetchState α)
    (path : String) (params : List (String × String)) :
    Except String α × FetchState α :=
  let key := cacheKey path params
  match lookupA st.cache key with
  | some v => (.ok v, st)
  | none =>
    match net key with
    | .error e => (.error e, ⟨st.cache, st.calls ++ [key]⟩)
    | .ok data => (.ok data, ⟨st.cache ++ [(key, data)], st.calls ++ [key]⟩)

/-- Execution trace of one all_tips `_get` call: its outcome (`.error
none` models `raise last_exc or RuntimeError("GET failed")` with no
recorded exception), the number of network requests issued, and the
backoff sleeps performed (seconds; `min(2**i, 30)` after a 429,
`min(2**i, 15)` after a transport error). -/
structure GetTrace (α : Type) : Type where
  result : Except (Option String) α
  requests : Nat
  backoffs : List Nat

/-- The retry loop of the all_tips `_get`: `remaining` counts the loop
iterations left out of `RETRY_MAX`, `i` is the Python loop index. -/
def atGetGo (net : Nat → NetResult α) :
    Nat → Nat → Option String → Nat → List Nat → GetTrace α
  | 0, _, last, reqs, bos => ⟨.error last, reqs, bos⟩
  | remaining + 1, i, last, reqs, bos =>
    match net i with
    | .ok v => ⟨.ok v, reqs + 1, bos⟩
    | .rate => atGetGo net remaining (i + 1) last (reqs + 1)
        (bos ++ [min (2 ^ i) 30])
    | .err e => atGetGo net remaining (i + 1) (some e) (reqs + 1)
        (bos ++ [min (2 ^ i) 15])

/-- Model of the all_tips `_get`: `net i` is the network's answer to the
`i`-th attempt of this call. -/
def at_get (net : Nat → NetResult α) (retryMax : Nat) : GetTrace α :=
  atGetGo net retryMax 0 none 0 []

/-- The all_tips `_get` acting on a request cursor: it consults no cache
and keeps no state, so consecutive calls keep consuming the request
stream at `pos`; the returned position counts every network request ever
issued. -/
def atGetCursorGo (net : Nat → NetResult α) :
    Nat → Nat → Option String → Except (Option String) α × Nat
  | 0, pos, last => (.error last, pos)
  | remaining + 1, pos, last =>
    match net pos with
    | .ok v => (.ok v, pos + 1)
    | .rate => atGetCursorGo net remaining (pos + 1) last
    | .err e => atGetCursorGo net remaining (pos + 1) (some e)

/-- One all_tips `_get` call against the shared request stream. -/
def at_get_from (net : Nat → NetResult α) (retryMax : Nat) (pos : Nat) :
    Except (Option String) α × Nat :=
  atGetCursorGo net retryMax pos none

/-! ## main.py (lines 14-53) -/

/-- Keyword parameters accepted by `build_tickets_and_reasoning`
(telegram_all_tips_ticket.py line 606: `date_str` only). -/
def buildAcceptedKw : List String := ["date_str"]

/-- Keyword arguments main.py passes at line 31. -/
def buildCallKw : List String := ["date_str", "debug"]

/-- Keyword parameters accepted by `post_to_telegram` (line 636). -/
def postAcceptedKw : List String := ["messages", "channels"]

/-- Keyword arguments main.py passes at line 42. -/
def postCallKw : List String := ["message", "channel"]

/-- Python keyword binding: a call without `**kwargs` raises `TypeError`
when some passed keyword is not an accepted parameter name. -/
def kwCallOk (accepted passed : List String) : Bool :=
  passed.all fun k => accepted.contains k

/-- Observable outcome of one `main()` run in main.py. -/
structure MainTrace : Type where
  enteredHandler : Bool
  postCalls : Nat
  printedSummary : Bool
  deriving DecidableEq

/-- Model of `main()`: everything inside the `try` block after the
`build_tickets_and_reasoning(date_str=..., debug=True)` call — the tuple
unpacking, the send loop with its `post_to_telegram(message=..., 
channel=...)` calls (`sends` per-ticket-channel attempts), and the final
summary print — executes only if that call binds its keywords; a
`TypeError` jumps to the `except` handler, which logs and returns. -/
def main_run (sends : Nat) : MainTrace :=
  if kwCallOk buildAcceptedKw buildCallKw then
    if kwCallOk postAcceptedKw postCallKw then ⟨false, sends, true⟩
    else if sends = 0 then ⟨false, 0, true⟩
    else ⟨true, 0, false⟩
  else ⟨true, 0, false⟩

end TicketSpec

namespace TicketSpec

/-! ## Derived definitions used by the theorems -/

/-- The generic `best, best_odd` fold both pickers instantiate. -/
def selFold {ι : Type} (cand : ι → Option Pick) (l : List ι)
    (st : Option Pick × ℚ) : Option Pick × ℚ :=
  l.foldl (fun st e => selStep st (cand e)) st

/-- The acceptance test of one cap entry, as `best_from_caps` applies it:
the looked-up price exists and does not exceed the cap. -/
def capCand (m : Slot) (e : (String × String) × ℚ) : Option Pick :=
  match lookup2 m e.1.1 e.1.2 with
  | none => none
  | some v => if v ≤ e.2 then some (e.1.1, e.1.2, v) else none

/-- A pick is accepted by some band rule of `bands` on table `m`:
its price is the table entry and lies in the inclusive range. -/
def bandAccepts (m : Slot) (bands : List ((String × String) × (ℚ × ℚ)))
    (p : Pick) : Prop :=
  ∃ lo hi, ((p.1, p.2.1), (lo, hi)) ∈ bands ∧
    lookup2 m p.1 p.2.1 = some p.2.2 ∧ lo ≤ p.2.2 ∧ p.2.2 ≤ hi

/-- A pick is accepted by some cap rule of `caps` on table `m`. -/
def capAccepts (m : Slot) (caps : List ((String × String) × ℚ))
    (p : Pick) : Prop :=
  ∃ cap, ((p.1, p.2.1), cap) ∈ caps ∧
    lookup2 m p.1 p.2.1 = some p.2.2 ∧ p.2.2 ≤ cap

/-- Product of the leg prices of a telegram-script ticket. -/
def prodOdds (legs : List Leg) : ℚ := (legs.map Leg.odd).prod

/-- Product of the leg prices of an all_tips-script ticket. -/
def prodTip (legs : List TipPick) : ℚ := (legs.map TipPick.odd).prod

/-- The only market keys the `bets/values` (older-shape) normalization
ever writes. -/
def CANONICAL_MARKETS : List String :=
  ["1st Half Goals", "Match Winner", "Double Chance", "Both Teams To Score",
   "Over/Under", "Home Team Goals", "Away Team Goals"]

/-- An item is in the older `bets/values` shape: no `markets` arrays. -/
def betsShape (items : List RawItem) : Prop :=
  ∀ it ∈ items, ∀ bm ∈ it.bookmakers, bm.markets = []

/-! ## Concrete instances used by counterexamples and witnesses -/

/-- Odds table offering only Match Winner, Home at 1.40. -/
def exSlot14 : Slot := [("Match Winner", [("Home", mkRat 140 100)])]

/-- Odds table offering only Match Winner, Home at 1.50. -/
def exSlot15 : Slot := [("Match Winner", [("Home", mkRat 150 100)])]

/-- A single allow-league fixture. -/
def exFx1 : Fixture := ⟨1, 10⟩

/-- Fixture 1 odds for the cross-ticket scenario: a band pick (Match
Winner Home 1.50) and a cap pick (1st Half Goals Over 0.5 at 1.25). -/
def exOdds1 : Slot :=
  [("Match Winner", [("Home", mkRat 150 100)]),
   ("1st Half Goals", [("Over 0.5", mkRat 125 100)])]

/-- Fixture 2 odds: Match Winner Home 1.40 plus the same cap pick. -/
def exOdds2 : Slot :=
  [("Match Winner", [("Home", mkRat 140 100)]),
   ("1st Half Goals", [("Over 0.5", mkRat 125 100)])]

/-- Fixture 3 odds: only the cap pick. -/
def exOdds3 : Slot := [("1st Half Goals", [("Over 0.5", mkRat 125 100)])]

/-- Per-fixture odds for the cross-ticket scenario. -/
def exOddsC2 : Nat → Slot
  | 1 => exOdds1
  | 2 => exOdds2
  | 3 => exOdds3
  | _ => []

/-- The three fixtures of the cross-ticket scenario, all in league 10. -/
def exFxsC2 : List Fixture := [⟨1, 10⟩, ⟨2, 10⟩, ⟨3, 10⟩]

/-- A newer-shape bookmaker quoting Over/Under, Over 2.5 at price `q`. -/
def exBmOU (q : ℚ) : RawBookmaker :=
  ⟨[⟨"Over/Under", [⟨"Over 2.5", some q, none⟩]⟩], []⟩

/-- Duplicate bookmaker entries for one (fixture, market, outcome) with
prices 1.40, 1.55, 1.30. -/
def exItemsDup : List RawItem :=
  [⟨some 1, [exBmOU (mkRat 140 100), exBmOU (mkRat 155 100),
             exBmOU (mkRat 130 100)]⟩]

/-- The same duplicate prices as older-shape `Double Chance` values, for
`_min_odd_in_bet`. -/
def exItemsMin : List RawItem :=
  [⟨some 1, [⟨[], [⟨"Double Chance",
    [⟨"1X", some (mkRat 140 100)⟩, ⟨"1X", some (mkRat 155 100)⟩,
     ⟨"1X", some (mkRat 130 100)⟩]⟩]⟩]⟩]

/-- A payload whose only market name (`Corners`) contains a forbidden
substring, in the newer shape. -/
def exItemsCorners : List RawItem :=
  [⟨some 7, [⟨[⟨"Corners", [⟨"Over 9.5", some (mkRat 190 100), none⟩]⟩],
             []⟩]⟩]

/-- A bets-shape payload whose only market is a forbidden one. -/
def exItemsBetsForbidden : List RawItem :=
  [⟨some 9, [⟨[], [⟨"Asian Handicap",
    [⟨"Home -0.5", some (mkRat 190 100)⟩]⟩]⟩]⟩]

/-- A bets-shape payload with one Match Winner bet. -/
def exItemsBetsMW : List RawItem :=
  [⟨some 3, [⟨[], [⟨"Match Winner",
    [⟨"Home", some (mkRat 150 100)⟩, ⟨"Away", some 3⟩]⟩]⟩]⟩]

/-- Older-shape odds offering Double Chance 1X 1.30 / X2 1.60 and Match
Winner Home 1.40 / Away 3, so both `build_picks` rules fire. -/
def exBpItems : List RawItem :=
  [⟨some 1, [⟨[], [⟨"Double Chance",
    [⟨"1X", some (mkRat 130 100)⟩, ⟨"X2", some (mkRat 160 100)⟩]⟩,
    ⟨"Match Winner",
    [⟨"Home", some (mkRat 140 100)⟩, ⟨"Away", some 3⟩]⟩]⟩]⟩]

/-- An upcoming fixture for `build_picks`. -/
def exPFx : PFixture := ⟨1, 39, "NS"⟩

/-- A pick of odd 2. -/
def exP2 : TipPick := ⟨1, "1X2", "Home", 2⟩

/-- A pick of odd 3. -/
def exP3 : TipPick := ⟨2, "1X2", "Home", 3⟩

/-- A pick of odd 1.5. -/
def exP15 : TipPick := ⟨3, "1X2", "Home", mkRat 150 100⟩

/-- A network oracle answering every request with the payload `7`. -/
def exNetOkN : Nat → NetResult Nat := fun _ => .ok 7

/-- A network oracle failing every request with a transport error. -/
def exNetErr : String → Except String Nat := fun _ => .error "boom"

/-- A per-attempt oracle: transport error on attempt 0, success after. -/
def exNetFailThenOk : Nat → NetResult Nat
  | 0 => .err "reset"
  | _ + 1 => .ok 7

/-- A per-attempt oracle failing every attempt. -/
def exNetAllErr : Nat → NetResult Nat := fun _ => .err "reset"

/-- A success oracle for the cached client. -/
def exNetOkS : String → Except String Nat := fun _ => .ok 42

end TicketSpec


namespace TicketSpec

/-! ## Association-list lemmas -/

theorem lookupA_setA {α β : Type} [DecidableEq α] (d : List (α × β))
    (k k' : α) (v : β) :
    lookupA (setA d k v) k' = if k = k' then some v else lookupA d k' := by
  induction d with
  | nil => simp [setA, lookupA]
  | cons hd t ih =>
    obtain ⟨k0, v0⟩ := hd
    simp only [setA]
    by_cases h : k0 = k
    · subst h
      rw [if_pos rfl]
      by_cases h' : k0 = k' <;> simp [lookupA, h']
    · rw [if_neg h]
      by_cases h' : k0 = k'
      · subst h'
        have hkk : ¬ k = k0 := fun hh => h hh.symm
        simp [lookupA, hkk]
      · simp [lookupA, h', ih]

theorem lookupA_append_none {α β : Type} [DecidableEq α] (l : List (α × β))
    (k : α) (v : β) (h : lookupA l k = none) :
    lookupA (l ++ [(k, v)]) k = some v := by
  induction l with
  | nil => simp [lookupA]
  | cons hd t ih =>
    obtain ⟨k0, v0⟩ := hd
    by_cases hk : k0 = k
    · simp [lookupA, hk] at h
    · simp only [lookupA, hk, if_false, List.cons_append] at h ⊢
      exact ih h

theorem setA_mem {α β : Type} [DecidableEq α] (d : List (α × β)) (k : α)
    (v : β) (x : α × β) (hx : x ∈ setA d k v) : x ∈ d ∨ x = (k, v) := by
  induction d with
  | nil => exact Or.inr (by simpa [setA] using hx)
  | cons hd t ih =>
    obtain ⟨k0, v0⟩ := hd
    by_cases hk : k0 = k
    · rw [setA, if_pos hk] at hx
      rcases List.mem_cons.mp hx with h | h
      · exact Or.inr h
      · exact Or.inl (List.mem_cons_of_mem _ h)
    · rw [setA, if_neg hk] at hx
      rcases List.mem_cons.mp hx with h | h
      · exact Or.inl (by simp [h])
      · rcases ih h with h' | h'
        · exact Or.inl (List.mem_cons_of_mem _ h')
        · exact Or.inr h'

end TicketSpec

namespace TicketSpec

/-! ## The shared best-pick fold -/

theorem selFold_cons {ι : Type} (cand : ι → Option Pick) (e : ι) (t : List ι)
    (st : Option Pick × ℚ) :
    selFold cand (e :: t) st = selFold cand t (selStep st (cand e)) := rfl

theorem selStep_snd_le (st : Option Pick × ℚ) (c : Option Pick) :
    st.2 ≤ (selStep st c).2 := by
  cases c with
  | none => simp [selStep]
  | some p =>
    simp only [selStep]
    by_cases h : p.2.2 > st.2
    · simpa [h] using le_of_lt h
    · simp [h]

theorem selFold_snd_le {ι : Type} (cand : ι → Option Pick) (l : List ι) :
    ∀ (st : Option Pick × ℚ), st.2 ≤ (selFold cand l st).2 := by
  induction l with
  | nil => intro st; exact le_refl _
  | cons e t ih =>
    intro st
    rw [selFold_cons]
    exact le_trans (selStep_snd_le st (cand e)) (ih _)

theorem selFold_dominates {ι : Type} (cand : ι → Option Pick) (l : List ι) :
    ∀ (st : Option Pick × ℚ) (e : ι), e ∈ l →
      ∀ p, cand e = some p → p.2.2 ≤ (selFold cand l st).2 := by
  induction l with
  | nil => intro st e he; exact absurd he (List.not_mem_nil e)
  | cons e0 t ih =>
    intro st e he p hp
    rw [selFold_cons]
    rcases List.mem_cons.mp he with h | h
    · subst h
      refine le_trans ?_ (selFold_snd_le cand t (selStep st (cand e)))
      rw [hp]
      simp only [selStep]
      by_cases hgt : p.2.2 > st.2
      · simp [hgt]
      · simpa [hgt] using le_of_not_lt hgt
    · exact ih _ e h p hp

/-- States reachable from `(None, 0.0)` keep `best_odd` equal to the best
pick's price. -/
def selInv (st : Option Pick × ℚ) : Prop :=
  ∀ q, st.1 = some q → st.2 = q.2.2

theorem selStep_inv {st : Option Pick × ℚ} {c : Option Pick}
    (h : selInv st) : selInv (selStep st c) := by
  cases c with
  | none => simpa [selStep] using h
  | some p =>
    simp only [selStep]
    by_cases hgt : p.2.2 > st.2
    · rw [if_pos hgt]
      intro q hq
      cases hq
      rfl
    · rw [if_neg hgt]
      exact h

theorem selFold_inv {ι : Type} (cand : ι → Option Pick) (l : List ι) :
    ∀ (st : Option Pick × ℚ), selInv st → selInv (selFold cand l st) := by
  induction l with
  | nil => intro st h; exact h
  | cons e t ih =>
    intro st h
    rw [selFold_cons]
    exact ih _ (selStep_inv h)

theorem selFold_some {ι : Type} (cand : ι → Option Pick) (l : List ι) :
    ∀ (st : Option Pick × ℚ) (p : Pick),
      (selFold cand l st).1 = some p →
        (st.1 = some p ∧ (selFold cand l st).2 = st.2) ∨
          (∃ e ∈ l, cand e = some p ∧ st.2 < p.2.2) := by
  induction l with
  | nil => intro st p h; exact Or.inl ⟨h, rfl⟩
  | cons e0 t ih =>
    intro st p h
    rw [selFold_cons] at h ⊢
    rcases ih (selStep st (cand e0)) p h with ⟨h1, h2⟩ | ⟨e, he, hce, hlt⟩
    · cases hc : cand e0 with
      | none =>
        rw [hc] at h1 h2
        exact Or.inl ⟨h1, h2⟩
      | some q =>
        rw [hc] at h1 h2
        simp only [selStep] at h1 h2
        by_cases hgt : q.2.2 > st.2
        · rw [if_pos hgt] at h1 h2
          cases h1
          exact Or.inr ⟨e0, List.mem_cons_self e0 t, hc, hgt⟩
        · rw [if_neg hgt] at h1 h2
          simp only [selStep]
          rw [if_neg hgt]
          exact Or.inl ⟨h1, h2⟩
    · have hle := selStep_snd_le st (cand e0)
      exact Or.inr ⟨e, List.mem_cons_of_mem _ he, hce, lt_of_le_of_lt hle hlt⟩

theorem selFold_none {ι : Type} (cand : ι → Option Pick) (l : List ι) :
    ∀ (st : Option Pick × ℚ),
      (selFold cand l st).1 = none →
        st.1 = none ∧ (selFold cand l st).2 = st.2 ∧
          ∀ e ∈ l, ∀ p, cand e = some p → p.2.2 ≤ st.2 := by
  induction l with
  | nil => intro st h; exact ⟨h, rfl, by simp⟩
  | cons e0 t ih =>
    intro st h
    rw [selFold_cons] at h ⊢
    have ihc := ih (selStep st (cand e0)) h
    cases hc : cand e0 with
    | none =>
      rw [hc] at ihc
      simp only [selStep] at ihc
      refine ⟨ihc.1, ihc.2.1, ?_⟩
      intro e he p hp
      rcases List.mem_cons.mp he with rfl | he'
      · rw [hp] at hc
        cases hc
      · exact ihc.2.2 e he' p hp
    | some q =>
      rw [hc] at ihc
      simp only [selStep] at ihc
      by_cases hgt : q.2.2 > st.2
      · rw [if_pos hgt] at ihc
        cases ihc.1
      · rw [if_neg hgt] at ihc
        simp only [selStep]
        rw [if_neg hgt]
        refine ⟨ihc.1, ihc.2.1, ?_⟩
        intro e he p hp
        rcases List.mem_cons.mp he with rfl | he'
        · rw [hp] at hc
          cases hc
          exact le_of_not_lt hgt
        · exact ihc.2.2 e he' p hp

end TicketSpec

namespace TicketSpec

/-! ## Picker characterizations (claim C6 infrastructure) -/

theorem best_from_bands_eq_selFold (m : Slot)
    (bands : List ((String × String) × (ℚ × ℚ))) :
    best_from_bands m bands =
      (selFold (fun e => pick_in_band m e.1.1 e.1.2 e.2.1 e.2.2) bands
        (none, 0)).1 := rfl

theorem best_from_caps_eq_selFold (m : Slot)
    (caps : List ((String × String) × ℚ)) :
    best_from_caps m caps = (selFold (capCand m) caps (none, 0)).1 := by
  have hf : (fun (st : Option Pick × ℚ) (e : (String × String) × ℚ) =>
      match lookup2 m e.1.1 e.1.2 with
      | none => st
      | some v =>
        if v ≤ e.2 ∧ v > st.2 then (some (e.1.1, e.1.2, v), v) else st) =
      fun st e => selStep st (capCand m e) := by
    funext st e
    cases hl : lookup2 m e.1.1 e.1.2 with
    | none => simp [capCand, hl, selStep]
    | some v =>
      by_cases hv : v ≤ e.2
      · by_cases hgt : v > st.2
        · simp [capCand, hl, hv, hgt, selStep]
        · simp [capCand, hl, hv, hgt, selStep]
      · simp [capCand, hl, hv, selStep]
  unfold best_from_caps selFold
  rw [hf]

theorem pick_in_band_iff (m : Slot) (mkt name : String) (lo hi : ℚ)
    (p : Pick) :
    pick_in_band m mkt name lo hi = some p ↔
      ∃ v, lookup2 m mkt name = some v ∧ lo ≤ v ∧ v ≤ hi ∧
        p = (mkt, name, v) := by
  cases h : lookup2 m mkt name with
  | none => simp [pick_in_band, h]
  | some v =>
    by_cases hb : lo ≤ v ∧ v ≤ hi
    · simp only [pick_in_band, h, if_pos hb]
      constructor
      · intro hp
        exact ⟨v, rfl, hb.1, hb.2, (Option.some_inj.mp hp).symm⟩
      · rintro ⟨v', hv', _, _, rfl⟩
        cases hv'
        rfl
    · simp only [pick_in_band, h, if_neg hb]
      constructor
      · intro hp
        cases hp
      · rintro ⟨v', hv', h1, h2, rfl⟩
        cases hv'
        exact absurd ⟨h1, h2⟩ hb

theorem bandAccepts_iff (m : Slot)
    (bands : List ((String × String) × (ℚ × ℚ))) (p : Pick) :
    bandAccepts m bands p ↔
      ∃ e ∈ bands, pick_in_band m e.1.1 e.1.2 e.2.1 e.2.2 = some p := by
  constructor
  · rintro ⟨lo, hi, hmem, hlook, h1, h2⟩
    refine ⟨((p.1, p.2.1), (lo, hi)), hmem, ?_⟩
    rw [pick_in_band_iff]
    exact ⟨p.2.2, hlook, h1, h2, rfl⟩
  · rintro ⟨e, he, hpe⟩
    rcases (pick_in_band_iff m e.1.1 e.1.2 e.2.1 e.2.2 p).mp hpe with
      ⟨v, hlook, h1, h2, rfl⟩
    exact ⟨e.2.1, e.2.2, by simpa using he, hlook, h1, h2⟩

theorem capAccepts_iff (m : Slot) (caps : List ((String × String) × ℚ))
    (p : Pick) :
    capAccepts m caps p ↔ ∃ e ∈ caps, capCand m e = some p := by
  constructor
  · rintro ⟨cap, hmem, hlook, hle⟩
    refine ⟨((p.1, p.2.1), cap), hmem, ?_⟩
    simp only [capCand, hlook, if_pos hle]
  · rintro ⟨e, he, hpe⟩
    cases hl : lookup2 m e.1.1 e.1.2 with
    | none => simp [capCand, hl] at hpe
    | some v =>
      by_cases hv : v ≤ e.2
      · simp only [capCand, hl, if_pos hv] at hpe
        cases hpe
        exact ⟨e.2, by simpa using he, hl, hv⟩
      · simp only [capCand, hl, if_neg hv] at hpe
        cases hpe

end TicketSpec

namespace TicketSpec

/-- C6: during candidate generation, for every odds table and rule set, a
band rule accepts an outcome exactly when its price lies in the inclusive
range given by `[lo, hi]`; a cap rule accepts exactly when the price is at
most the cap; and whenever the picker returns a candidate it is an
accepted outcome of (strictly positive) maximal price among all accepted
outcomes, while `None` is returned only when no accepted outcome has
positive price. -/
theorem c6_rule_semantics (m : Slot)
    (bands : List ((String × String) × (ℚ × ℚ)))
    (caps : List ((String × String) × ℚ)) :
    (∀ mkt name lo hi p, pick_in_band m mkt name lo hi = some p ↔
        ∃ v, lookup2 m mkt name = some v ∧ lo ≤ v ∧ v ≤ hi ∧
          p = (mkt, name, v)) ∧
    (∀ p, best_from_bands m bands = some p →
        bandAccepts m bands p ∧ 0 < p.2.2 ∧
          ∀ q, bandAccepts m bands q → q.2.2 ≤ p.2.2) ∧
    (best_from_bands m bands = none →
        ∀ q, bandAccepts m bands q → q.2.2 ≤ 0) ∧
    (∀ p, best_from_caps m caps = some p →
        capAccepts m caps p ∧ 0 < p.2.2 ∧
          ∀ q, capAccepts m caps q → q.2.2 ≤ p.2.2) ∧
    (best_from_caps m caps = none →
        ∀ q, capAccepts m caps q → q.2.2 ≤ 0) := by
  refine ⟨fun mkt name lo hi p => pick_in_band_iff m mkt name lo hi p,
    ?_, ?_, ?_, ?_⟩
  · intro p hp
    rw [best_from_bands_eq_selFold] at hp
    rcases selFold_some _ bands (none, 0) p hp with ⟨h1, _⟩ | ⟨e, he, hce, hlt⟩
    · cases h1
    · have hacc : bandAccepts m bands p :=
        (bandAccepts_iff m bands p).mpr ⟨e, he, hce⟩
      have hinv := selFold_inv
        (fun e => pick_in_band m e.1.1 e.1.2 e.2.1 e.2.2) bands
        ((none : Option Pick), (0 : ℚ)) (fun q hq => by cases hq)
      have hsnd := hinv p hp
      refine ⟨hacc, hlt, ?_⟩
      intro q hq
      rcases (bandAccepts_iff m bands q).mp hq with ⟨e', he', hce'⟩
      have := selFold_dominates
        (fun e => pick_in_band m e.1.1 e.1.2 e.2.1 e.2.2) bands
        ((none : Option Pick), (0 : ℚ)) e' he' q hce'
      rwa [hsnd] at this
  · intro hn q hq
    rw [best_from_bands_eq_selFold] at hn
    have h := selFold_none _ bands ((none : Option Pick), (0 : ℚ)) hn
    rcases (bandAccepts_iff m bands q).mp hq with ⟨e', he', hce'⟩
    exact h.2.2 e' he' q hce'
  · intro p hp
    rw [best_from_caps_eq_selFold] at hp
    rcases selFold_some _ caps (none, 0) p hp with ⟨h1, _⟩ | ⟨e, he, hce, hlt⟩
    · cases h1
    · have hacc : capAccepts m caps p :=
        (capAccepts_iff m caps p).mpr ⟨e, he, hce⟩
      have hinv := selFold_inv (capCand m) caps
        ((none : Option Pick), (0 : ℚ)) (fun q hq => by cases hq)
      have hsnd := hinv p hp
      refine ⟨hacc, hlt, ?_⟩
      intro q hq
      rcases (capAccepts_iff m caps q).mp hq with ⟨e', he', hce'⟩
      have := selFold_dominates (capCand m) caps
        ((none : Option Pick), (0 : ℚ)) e' he' q hce'
      rwa [hsnd] at this
  · intro hn q hq
    rw [best_from_caps_eq_selFold] at hn
    have h := selFold_none (capCand m) caps ((none : Option Pick), (0 : ℚ)) hn
    rcases (capAccepts_iff m caps q).mp hq with ⟨e', he', hce'⟩
    exact h.2.2 e' he' q hce'

/-- Witness for C6 at a concrete table: on `exOdds1` the bands pick Match
Winner Home at 1.50, which is accepted and maximal among accepted picks. -/
theorem c6_rule_semantics_witness :
    bandAccepts exOdds1 MARKET_BANDS ("Match Winner", "Home", mkRat 150 100) ∧
    (0 : ℚ) < mkRat 150 100 := by
  have h := (c6_rule_semantics exOdds1 MARKET_BANDS ALLOW_ALL_CAPS_HARD).2.1
    ("Match Winner", "Home", mkRat 150 100) (by decide)
  exact ⟨h.1, h.2.1⟩

end TicketSpec

namespace TicketSpec

/-- C1 counterexample: `assemble_ticket1` on a single allow-league fixture
quoting Match Winner Home at 1.40 emits a two-leg ticket whose price
product is 1.96 < 2.0 (the 2.0 target is not re-checked at emission), and
`make_tickets` flushes a final ticket of product 1.5 < 3.0 (its target);
so "product ≥ assigned target for every emitted ticket" is false. -/
theorem c1_counterexample :
    (assemble_ticket1 [10] 2 6 (fun _ => exSlot14) [exFx1]).1.length = 2 ∧
    (assemble_ticket1 [10] 2 6 (fun _ => exSlot14) [exFx1]).2 =
      mkRat 196 100 ∧
    (mkRat 196 100 : ℚ) < 2 ∧
    make_tickets_run 8 3 (mkRat 101 100) [exP15] = [[exP15]] ∧
    prodTip [exP15] < 3 := by
  decide

/-- C2 counterexample: in one run of `build_tickets_and_reasoning` on the
`exOddsC2` day, Ticket #1 and Ticket #2 are both emitted and both contain
fixture 1 — the fixture-id sets of the two tickets are not disjoint. -/
theorem c2_counterexample :
    ∃ t1 ∈ build_tickets_and_reasoning [10] 2 6 exOddsC2 exFxsC2,
      ∃ t2 ∈ build_tickets_and_reasoning [10] 2 6 exOddsC2 exFxsC2,
        t1 ≠ t2 ∧ ∃ fid, fid ∈ t1.1.map Leg.fid ∧ fid ∈ t2.1.map Leg.fid := by
  decide

/-- C3 counterexample: `_min_odd_in_bet` (all_tips_ticket.py), given
duplicate entries for the same (fixture, market, outcome) with prices
[1.40, 1.55, 1.30], normalizes to the MINIMUM 1.30, not the claimed
maximum 1.55 — a later lower price does overwrite there. -/
theorem c3_counterexample :
    min_odd_in_bet exItemsMin "Double Chance" = [("1X", mkRat 130 100)] ∧
    (mkRat 130 100 : ℚ) ≠ mkRat 155 100 := by
  decide

/-- C4 counterexample: a newer-shape (`markets/outcomes`) payload whose
only market name is `Corners` — which contains the forbidden substring
`corners` — normalizes to a NON-empty table carrying that market: the
forbidden-substring filter is not applied on the newer shape. -/
theorem c4_counterexample :
    collect_odds_table exItemsCorners =
      [(7, [("Corners", [("Over 9.5", mkRat 190 100)])])] ∧
    pyIn "corners" (pyLower "Corners") = true ∧
    [("Corners", [("Over 9.5", mkRat 190 100)])] ≠ ([] : Slot) := by
  decide

/-- C5 counterexample: `assemble_ticket1`'s tier-2 relaxation re-scans a
fixture that already contributed a leg in tier 1, so the emitted ticket
carries fixture 1 twice; and `build_picks` emits two picks for the same
fixture when both the Double-Chance and the 1X2 rule fire. -/
theorem c5_counterexample :
    (assemble_ticket1 [10] 2 6 (fun _ => exSlot15) [exFx1]).1.map Leg.fid =
      [1, 1] ∧
    ¬ ([1, 1] : List Nat).Nodup ∧
    (build_picks (mkRat 101 100) (mkRat 145 100) [] (fun _ => exBpItems)
      [exPFx]).map TipPick.fid = [1, 1] := by
  decide

/-- C9 counterexample: `make_tickets` shuffles its input with the global
RNG before assembling; the two shuffle outcomes [2, 3] and [3, 2] of the
same pick list produce different ticket lists, so two runs of
`make_tickets` on the same input need not agree. -/
theorem c9_counterexample :
    make_tickets_run 8 3 (mkRat 101 100) [exP2, exP3] ≠
      make_tickets_run 8 3 (mkRat 101 100) [exP3, exP2] ∧
    ([exP3, exP2].Perm [exP2, exP3]) := by
  constructor
  · decide
  · exact List.Perm.swap _ _ _

end TicketSpec

namespace TicketSpec

/-- C10: main.py calls `build_tickets_and_reasoning(date_str=..., 
debug=True)`, but the callee accepts only `date_str`, so the call raises
`TypeError`; every run of `main()` therefore enters the `except` handler,
issues no `post_to_telegram` call (whose accepted keywords `messages`, 
`channels` would anyway not bind the passed `message`, `channel`), and
never prints the summary payload. -/
theorem c10_main_always_fails :
    kwCallOk buildAcceptedKw buildCallKw = false ∧
    kwCallOk postAcceptedKw postCallKw = false ∧
    ∀ sends, main_run sends = ⟨true, 0, false⟩ := by
  refine ⟨rfl, rfl, fun sends => rfl⟩

/-- C7 counterexample: the all_tips `_get` consults no cache; a second
call with identical arguments advances the shared request stream from
position 1 to 2, i.e. it issues a fresh network request instead of being
served from a cache. -/
theorem c7_counterexample :
    at_get_from exNetOkN 4 0 = (.ok 7, 1) ∧
    at_get_from exNetOkN 4 1 = (.ok 7, 2) ∧ (2 : Nat) ≠ 1 :=
  ⟨rfl, rfl, by decide⟩

/-- C7 amended: the telegram `_get` does cache: when a call returns a
fetched payload, a second call with the same path and params returns the
same payload and leaves the client state — in particular the log of
issued network requests — unchanged. -/
theorem c7_amended {α : Type} (net : String → Except String α)
    (st : FetchState α) (path : String) (params : List (String × String))
    (v : α) (h : (tg_get net st path params).1 = .ok v) :
    (tg_get net (tg_get net st path params).2 path params).1 = .ok v ∧
    (tg_get net (tg_get net st path params).2 path params).2 =
      (tg_get net st path params).2 := by
  cases hl : lookupA st.cache (cacheKey path params) with
  | some w =>
    have h1 : tg_get net st path params = (.ok w, st) := by
      simp [tg_get, hl]
    rw [h1] at h ⊢
    cases h
    exact ⟨by simp [tg_get, hl], by simp [tg_get, hl]⟩
  | none =>
    cases hn : net (cacheKey path params) with
    | error e =>
      have h1 : (tg_get net st path params).1 = .error e := by
        simp [tg_get, hl, hn]
      rw [h1] at h
      cases h
    | ok data =>
      have h1 : tg_get net st path params =
          (.ok data, ⟨st.cache ++ [(cacheKey path params, data)],
            st.calls ++ [cacheKey path params]⟩) := by
        simp [tg_get, hl, hn]
      rw [h1] at h ⊢
      cases h
      have h2 : lookupA (st.cache ++ [(cacheKey path params, v)])
          (cacheKey path params) = some v :=
        lookupA_append_none st.cache _ v hl
      exact ⟨by simp [tg_get, h2], by simp [tg_get, h2]⟩

/-- Witness for the amended C7 on a concrete run. -/
theorem c7_amended_witness :
    (tg_get exNetOkS
      (tg_get exNetOkS ⟨[], []⟩ "/fixtures" [("date", "2025-10-12")]).2
      "/fixtures" [("date", "2025-10-12")]).1 = .ok 42 ∧
    (tg_get exNetOkS
      (tg_get exNetOkS ⟨[], []⟩ "/fixtures" [("date", "2025-10-12")]).2
      "/fixtures" [("date", "2025-10-12")]).2 =
      (tg_get exNetOkS ⟨[], []⟩ "/fixtures" [("date", "2025-10-12")]).2 :=
  c7_amended exNetOkS ⟨[], []⟩ "/fixtures" [("date", "2025-10-12")] 42 rfl

/-- C8 counterexample: the telegram `_get` has no retry loop — on a
transient transport failure it propagates the error after a single
request, although a retry budget of 4 attempts (which the all_tips client
honours, succeeding here on attempt 2) was not exhausted. -/
theorem c8_counterexample :
    (tg_get exNetErr ⟨[], []⟩ "/fixtures" [("date", "2025-10-12")]).1 =
      .error "boom" ∧
    (tg_get exNetErr ⟨[], []⟩ "/fixtures"
      [("date", "2025-10-12")]).2.calls.length = 1 ∧
    (1 : Nat) < 4 ∧
    (at_get exNetFailThenOk 4).result = .ok 7 ∧
    (at_get exNetFailThenOk 4).requests = 2 :=
  ⟨rfl, rfl, by decide, rfl, rfl⟩

theorem atGetGo_requests {α : Type} (net : Nat → NetResult α) :
    ∀ (remaining i : Nat) (last : Option String) (reqs : Nat)
      (bos : List Nat),
      (atGetGo net remaining i last reqs bos).requests ≤ reqs + remaining
  | 0, _, _, reqs, _ => Nat.le_add_right reqs 0
  | remaining + 1, i, last, reqs, bos => by
    simp only [atGetGo]
    cases hn : net i with
    | ok v => dsimp only; omega
    | rate =>
      dsimp only
      have := atGetGo_requests net remaining (i + 1) last (reqs + 1)
        (bos ++ [min (2 ^ i) 30])
      omega
    | err e =>
      dsimp only
      have := atGetGo_requests net remaining (i + 1) (some e) (reqs + 1)
        (bos ++ [min (2 ^ i) 15])
      omega

theorem atGetGo_backoffs {α : Type} (net : Nat → NetResult α) :
    ∀ (remaining i : Nat) (last : Option String) (reqs : Nat)
      (bos : List Nat), (∀ d ∈ bos, d ≤ 30) →
      ∀ d ∈ (atGetGo net remaining i last reqs bos).backoffs, d ≤ 30
  | 0, _, _, _, _, hb => hb
  | remaining + 1, i, last, reqs, bos, hb => by
    simp only [atGetGo]
    cases hn : net i with
    | ok v => exact hb
    | rate =>
      dsimp only
      refine atGetGo_backoffs net remaining (i + 1) last (reqs + 1) _ ?_
      intro d hd
      rcases List.mem_append.mp hd with h | h
      · exact hb d h
      · rcases List.mem_singleton.mp h with rfl
        exact min_le_right _ _
    | err e =>
      dsimp only
      refine atGetGo_backoffs net remaining (i + 1) (some e) (reqs + 1) _ ?_
      intro d hd
      rcases List.mem_append.mp hd with h | h
      · exact hb d h
      · rcases List.mem_singleton.mp h with rfl
        exact le_trans (min_le_right _ _) (by omega)

theorem atGetGo_error_requests {α : Type} (net : Nat → NetResult α) :
    ∀ (remaining i : Nat) (last : Option String) (reqs : Nat)
      (bos : List Nat) (e : Option String),
      (atGetGo net remaining i last reqs bos).result = .error e →
      (atGetGo net remaining i last reqs bos).requests = reqs + remaining
  | 0, _, _, reqs, _, e, _ => rfl
  | remaining + 1, i, last, reqs, bos, e, h => by
    simp only [atGetGo] at h ⊢
    cases hn : net i with
    | ok v => rw [hn] at h; dsimp only at h; cases h
    | rate =>
      rw [hn] at h
      dsimp only at h ⊢
      have := atGetGo_error_requests net remaining (i + 1) last (reqs + 1)
        (bos ++ [min (2 ^ i) 30]) e h
      omega
    | err e0 =>
      rw [hn] at h
      dsimp only at h ⊢
      have := atGetGo_error_requests net remaining (i + 1) (some e0)
        (reqs + 1) (bos ++ [min (2 ^ i) 15]) e h
      omega

theorem atGetGo_last_error {α : Type} (net : Nat → NetResult α) :
    ∀ (remaining i : Nat) (last : Option String) (reqs : Nat)
      (bos : List Nat) (e : String),
      (atGetGo net remaining i last reqs bos).result = .error (some e) →
      (∃ j, i ≤ j ∧ j < i + remaining ∧ net j = .err e ∧
        ∀ k, j < k → k < i + remaining → ∀ e', net k ≠ .err e') ∨
      (last = some e ∧
        ∀ k, i ≤ k → k < i + remaining → ∀ e', net k ≠ .err e')
  | 0, i, last, reqs, bos, e, h => by
    simp only [atGetGo] at h
    cases h
    exact Or.inr ⟨rfl, fun k hk1 hk2 e' => by omega⟩
  | remaining + 1, i, last, reqs, bos, e, h => by
    simp only [atGetGo] at h
    cases hn : net i with
    | ok v => rw [hn] at h; dsimp only at h; cases h
    | rate =>
      rw [hn] at h
      dsimp only at h
      rcases atGetGo_last_error net remaining (i + 1) last (reqs + 1)
        (bos ++ [min (2 ^ i) 30]) e h with ⟨j, hj1, hj2, hj3, hj4⟩ | ⟨h1, h2⟩
      · exact Or.inl ⟨j, by omega, by omega, hj3,
          fun k hk1 hk2 e' => hj4 k hk1 (by omega) e'⟩
      · refine Or.inr ⟨h1, fun k hk1 hk2 e' => ?_⟩
        rcases Nat.eq_or_lt_of_le hk1 with rfl | hk
        · rw [hn]; intro hc; cases hc
        · exact h2 k hk (by omega) e'
    | err e0 =>
      rw [hn] at h
      dsimp only at h
      rcases atGetGo_last_error net remaining (i + 1) (some e0) (reqs + 1)
        (bos ++ [min (2 ^ i) 15]) e h with ⟨j, hj1, hj2, hj3, hj4⟩ | ⟨h1, h2⟩
      · exact Or.inl ⟨j, by omega, by omega, hj3,
          fun k hk1 hk2 e' => hj4 k hk1 (by omega) e'⟩
      · cases h1
        refine Or.inl ⟨i, le_refl i, by omega, hn,
          fun k hk1 hk2 e' => ?_⟩
        exact h2 k (by omega) (by omega) e'

/-- C8 amended: the all_tips `_get` issues at most `RETRY_MAX` requests
with every backoff sleep capped at 30 seconds, raises only after the whole
budget is consumed, and the error it raises is the one recorded from the
last failing attempt (no later attempt fails); the telegram `_get`,
however, propagates a transient error after its single attempt (see the
counterexample). -/
theorem c8_amended {α : Type} (net : Nat → NetResult α) (retryMax : Nat) :
    (at_get net retryMax).requests ≤ retryMax ∧
    (∀ d ∈ (at_get net retryMax).backoffs, d ≤ 30) ∧
    (∀ e, (at_get net retryMax).result = .error e →
      (at_get net retryMax).requests = retryMax) ∧
    (∀ e, (at_get net retryMax).result = .error (some e) →
      ∃ j, j < retryMax ∧ net j = .err e ∧
        ∀ k, j < k → k < retryMax → ∀ e', net k ≠ .err e') := by
  refine ⟨?_, ?_, ?_, ?_⟩
  · simpa using atGetGo_requests net retryMax 0 none 0 []
  · exact atGetGo_backoffs net retryMax 0 none 0 [] (by simp)
  · intro e h
    simpa using atGetGo_error_requests net retryMax 0 none 0 [] e h
  · intro e h
    rcases atGetGo_last_error net retryMax 0 none 0 [] e h with
      ⟨j, _, hj2, hj3, hj4⟩ | ⟨h1, _⟩
    · exact ⟨j, by omega, hj3, fun k hk1 hk2 e' => hj4 k hk1 (by omega) e'⟩
    · cases h1

/-- Witness for the amended C8: with every attempt failing, the budget of
2 attempts is fully consumed before the error propagates. -/
theorem c8_amended_witness :
    (at_get exNetAllErr 2).requests ≤ 2 ∧
    (at_get exNetAllErr 2).requests = 2 := by
  have h := c8_amended exNetAllErr 2
  exact ⟨h.1, h.2.2.1 (some "reset") rfl⟩

/-- C9 amended: downstream of `random.shuffle`, `make_tickets` is a pure
function — two runs handed the same shuffled pick sequence produce the
same ticket list in the same order; determinism fails only through the
RNG-chosen order (see the counterexample). -/
theorem c9_amended (maxTickets : Nat) (target minOdd : ℚ)
    (s1 s2 : List TipPick) (h : s1 = s2) :
    make_tickets_run maxTickets target minOdd s1 =
      make_tickets_run maxTickets target minOdd s2 := by rw [h]

/-- Witness for the amended C9 on a concrete shuffled sequence. -/
theorem c9_amended_witness :
    make_tickets_run 8 3 (mkRat 101 100) [exP2, exP3] =
      make_tickets_run 8 3 (mkRat 101 100) [exP2, exP3] :=
  c9_amended 8 3 (mkRat 101 100) [exP2, exP3] [exP2, exP3] rfl

end TicketSpec

namespace TicketSpec

/-! ## Greedy-loop invariants (claims C1, C5) -/

theorem prodOdds_append_single (l : List Leg) (x : Leg) :
    prodOdds (l ++ [x]) = prodOdds l * x.odd := by
  simp [prodOdds]

theorem prodTip_append_single (l : List TipPick) (x : TipPick) :
    prodTip (l ++ [x]) = prodTip l * x.odd := by
  simp [prodTip]

theorem greedyLoop_length_le (legsMin legsMax : Nat) (target : ℚ) :
    ∀ (pool ticket : List Leg) (total : ℚ), ticket.length ≤ legsMax →
      (greedyLoop legsMin legsMax target pool ticket total).1.length ≤
        legsMax
  | [], _, _, h => h
  | leg :: rest, ticket, total, h => by
    simp only [greedyLoop]
    by_cases hmax : legsMax ≤ ticket.length
    · rw [if_pos hmax]
      exact h
    · rw [if_neg hmax]
      have hlen : (ticket ++ [leg]).length ≤ legsMax := by
        simp only [List.length_append, List.length_singleton]
        omega
      by_cases hstop : legsMin ≤ (ticket ++ [leg]).length ∧
          target ≤ total * leg.odd
      · rw [if_pos hstop]
        exact hlen
      · rw [if_neg hstop]
        exact greedyLoop_length_le legsMin legsMax target rest _ _ hlen

theorem greedyLoop_prod (legsMin legsMax : Nat) (target : ℚ) :
    ∀ (pool ticket : List Leg) (total : ℚ), total = prodOdds ticket →
      (greedyLoop legsMin legsMax target pool ticket total).2 =
        prodOdds (greedyLoop legsMin legsMax target pool ticket total).1
  | [], _, _, h => h
  | leg :: rest, ticket, total, h => by
    simp only [greedyLoop]
    by_cases hmax : legsMax ≤ ticket.length
    · rw [if_pos hmax]
      exact h
    · rw [if_neg hmax]
      have hprod : total * leg.odd = prodOdds (ticket ++ [leg]) := by
        rw [prodOdds_append_single, h]
      by_cases hstop : legsMin ≤ (ticket ++ [leg]).length ∧
          target ≤ total * leg.odd
      · rw [if_pos hstop]
        exact hprod
      · rw [if_neg hstop]
        exact greedyLoop_prod legsMin legsMax target rest _ _ hprod

theorem t2Fix_length_le (legsMin legsMax : Nat) (target : ℚ) :
    ∀ (pool ticket : List Leg) (total : ℚ), ticket.length ≤ legsMax →
      (t2Fix legsMin legsMax target pool ticket total).1.length ≤ legsMax
  | [], _, _, h => h
  | leg :: rest, ticket, total, h => by
    simp only [t2Fix]
    by_cases hmem : leg ∈ ticket
    · rw [if_pos hmem]
      exact t2Fix_length_le legsMin legsMax target rest _ _ h
    · rw [if_neg hmem]
      by_cases hmax : legsMax ≤ ticket.length
      · rw [if_pos hmax]
        exact h
      · rw [if_neg hmax]
        have hlen : (ticket ++ [leg]).length ≤ legsMax := by
          simp only [List.length_append, List.length_singleton]
          omega
        by_cases hstop : target ≤ total * leg.odd ∧
            legsMin ≤ (ticket ++ [leg]).length
        · rw [if_pos hstop]
          exact hlen
        · rw [if_neg hstop]
          exact t2Fix_length_le legsMin legsMax target rest _ _ hlen

theorem t2Fix_prod (legsMin legsMax : Nat) (target : ℚ) :
    ∀ (pool ticket : List Leg) (total : ℚ), total = prodOdds ticket →
      (t2Fix legsMin legsMax target pool ticket total).2 =
        prodOdds (t2Fix legsMin legsMax target pool ticket total).1
  | [], _, _, h => h
  | leg :: rest, ticket, total, h => by
    simp only [t2Fix]
    by_cases hmem : leg ∈ ticket
    · rw [if_pos hmem]
      exact t2Fix_prod legsMin legsMax target rest _ _ h
    · rw [if_neg hmem]
      by_cases hmax : legsMax ≤ ticket.length
      · rw [if_pos hmax]
        exact h
      · rw [if_neg hmax]
        have hprod : total * leg.odd = prodOdds (ticket ++ [leg]) := by
          rw [prodOdds_append_single, h]
        by_cases hstop : target ≤ total * leg.odd ∧
            legsMin ≤ (ticket ++ [leg]).length
        · rw [if_pos hstop]
          exact hprod
        · rw [if_neg hstop]
          exact t2Fix_prod legsMin legsMax target rest _ _ hprod

theorem makeTicketsGo_dropLast (maxTickets : Nat) (target minOdd : ℚ) :
    ∀ (rest : List TipPick) (tickets : List (List TipPick))
      (cur : List TipPick) (curTotal : ℚ),
      (∀ t ∈ tickets, target ≤ prodTip t) → curTotal = prodTip cur →
      ∀ t ∈ (makeTicketsGo maxTickets target minOdd rest tickets cur
        curTotal).dropLast, target ≤ prodTip t
  | [], tickets, cur, curTotal, ht, _, t, hmem => by
    simp only [makeTicketsGo] at hmem
    by_cases hc : ¬ cur.isEmpty ∧ tickets.length < maxTickets
    · rw [if_pos hc, List.dropLast_concat] at hmem
      exact ht t hmem
    · rw [if_neg hc] at hmem
      exact ht t ((List.dropLast_sublist tickets).subset hmem)
  | p :: rest, tickets, cur, curTotal, ht, hp, t, hmem => by
    simp only [makeTicketsGo] at hmem
    by_cases hmaxed : maxTickets ≤ tickets.length
    · rw [if_pos hmaxed] at hmem
      exact ht t ((List.dropLast_sublist tickets).subset hmem)
    · rw [if_neg hmaxed] at hmem
      by_cases hskip : p.odd < minOdd
      · rw [if_pos hskip] at hmem
        exact makeTicketsGo_dropLast maxTickets target minOdd rest tickets
          cur curTotal ht hp t hmem
      · rw [if_neg hskip] at hmem
        by_cases hemit : target ≤ curTotal * p.odd
        · rw [if_pos hemit] at hmem
          refine makeTicketsGo_dropLast maxTickets target minOdd rest
            (tickets ++ [cur ++ [p]]) [] 1 ?_ (by simp [prodTip]) t hmem
          intro t' ht'
          rcases List.mem_append.mp ht' with h | h
          · exact ht t' h
          · rcases List.mem_singleton.mp h with rfl
            rw [prodTip_append_single, ← hp]
            exact hemit
        · rw [if_neg hemit] at hmem
          refine makeTicketsGo_dropLast maxTickets target minOdd rest
            tickets (cur ++ [p]) (curTotal * p.odd) ht ?_ t hmem
          rw [prodTip_append_single, ← hp]

end TicketSpec

namespace TicketSpec

theorem t2_finish_props (legsMin legsMax : Nat) (pool : List Leg)
    (h : (t2_finish legsMin legsMax pool).1 ≠ []) :
    MIN_T2_TOTAL ≤ (t2_finish legsMin legsMax pool).2 ∧
    legsMin ≤ (t2_finish legsMin legsMax pool).1.length ∧
    (t2_finish legsMin legsMax pool).1.length ≤ legsMax ∧
    (t2_finish legsMin legsMax pool).2 =
      prodOdds (t2_finish legsMin legsMax pool).1 := by
  have hlen1 : (greedyLoop legsMin legsMax MIN_T2_TOTAL (sortPoolAsc pool)
      [] 1).1.length ≤ legsMax :=
    greedyLoop_length_le legsMin legsMax MIN_T2_TOTAL (sortPoolAsc pool) []
      1 (Nat.zero_le _)
  have hprod1 : (greedyLoop legsMin legsMax MIN_T2_TOTAL (sortPoolAsc pool)
      [] 1).2 = prodOdds (greedyLoop legsMin legsMax MIN_T2_TOTAL
        (sortPoolAsc pool) [] 1).1 :=
    greedyLoop_prod legsMin legsMax MIN_T2_TOTAL (sortPoolAsc pool) [] 1
      (by simp [prodOdds])
  simp only [t2_finish] at h ⊢
  set r1 := greedyLoop legsMin legsMax MIN_T2_TOTAL (sortPoolAsc pool) [] 1
    with hr1
  set r2 := (if r1.2 < MIN_T2_TOTAL ∨ r1.1.length < legsMin then
      t2Fix legsMin legsMax MIN_T2_TOTAL (sortPoolDesc pool) r1.1 r1.2
    else r1) with hr2
  have hlen2 : r2.1.length ≤ legsMax := by
    rw [hr2]
    split
    · exact t2Fix_length_le _ _ _ _ _ _ hlen1
    · exact hlen1
  have hprod2 : r2.2 = prodOdds r2.1 := by
    rw [hr2]
    split
    · exact t2Fix_prod _ _ _ _ _ _ hprod1
    · exact hprod1
  by_cases hfin : r2.2 < MIN_T2_TOTAL ∨ r2.1.length < legsMin
  · rw [if_pos hfin] at h
    exact absurd rfl h
  · rw [if_neg hfin] at h ⊢
    push_neg at hfin
    exact ⟨hfin.1, hfin.2, hlen2, hprod2⟩

/-- C1 corrected: tickets emitted by `assemble_ticket2_allow_all` do
satisfy the claim — price product at least the ticket's target
`MIN_T2_TOTAL` and leg count within `[LEGS_MIN, LEGS_MAX]`. Tickets
emitted by `assemble_ticket1` always have leg count within
`[LEGS_MIN, LEGS_MAX]` and total equal to the product of their legs'
prices, but their 2.0 target is not guaranteed (see the counterexample).
In `make_tickets` every emitted ticket except possibly the final flushed
one has product at least the target; no leg-count bounds exist there. -/
theorem c1_amended :
    (∀ (legsMin legsMax : Nat) (oddsOf : Nat → Slot)
      (fixtures : List Fixture),
      (assemble_ticket2_allow_all legsMin legsMax oddsOf fixtures).1 ≠ [] →
        MIN_T2_TOTAL ≤
            (assemble_ticket2_allow_all legsMin legsMax oddsOf fixtures).2 ∧
          legsMin ≤ (assemble_ticket2_allow_all legsMin legsMax oddsOf
              fixtures).1.length ∧
          (assemble_ticket2_allow_all legsMin legsMax oddsOf
              fixtures).1.length ≤ legsMax ∧
          (assemble_ticket2_allow_all legsMin legsMax oddsOf fixtures).2 =
            prodOdds (assemble_ticket2_allow_all legsMin legsMax oddsOf
              fixtures).1) ∧
    (∀ (allowIds : List Nat) (legsMin legsMax : Nat) (oddsOf : Nat → Slot)
      (fixtures : List Fixture),
      (assemble_ticket1 allowIds legsMin legsMax oddsOf fixtures).1 ≠ [] →
        legsMin ≤ (assemble_ticket1 allowIds legsMin legsMax oddsOf
            fixtures).1.length ∧
          (assemble_ticket1 allowIds legsMin legsMax oddsOf
              fixtures).1.length ≤ legsMax ∧
          (assemble_ticket1 allowIds legsMin legsMax oddsOf fixtures).2 =
            prodOdds (assemble_ticket1 allowIds legsMin legsMax oddsOf
              fixtures).1) ∧
    (∀ (maxTickets : Nat) (target minOdd : ℚ) (shuffled : List TipPick)
      (t : List TipPick),
      t ∈ (make_tickets_run maxTickets target minOdd shuffled).dropLast →
        target ≤ prodTip t) := by
  refine ⟨?_, ?_, ?_⟩
  · intro legsMin legsMax oddsOf fixtures hne
    simp only [assemble_ticket2_allow_all] at hne ⊢
    by_cases hp : (t2_pool oddsOf fixtures).isEmpty
    · rw [if_pos hp] at hne
      exact absurd rfl hne
    · rw [if_neg hp] at hne ⊢
      exact t2_finish_props legsMin legsMax _ hne
  · intro allowIds legsMin legsMax oddsOf fixtures hne
    simp only [assemble_ticket1] at hne ⊢
    by_cases hlt :
        (greedyLoop legsMin legsMax 2
          (sortPoolDesc (t1_pool allowIds legsMin oddsOf fixtures)) []
          1).1.length < legsMin
    · rw [if_pos hlt] at hne
      exact absurd rfl hne
    · rw [if_neg hlt] at hne ⊢
      refine ⟨le_of_not_lt hlt, ?_, ?_⟩
      · exact greedyLoop_length_le legsMin legsMax 2 _ [] 1 (Nat.zero_le _)
      · exact greedyLoop_prod legsMin legsMax 2 _ [] 1 (by simp [prodOdds])
  · intro maxTickets target minOdd shuffled t hmem
    exact makeTicketsGo_dropLast maxTickets target minOdd shuffled [] [] 1
      (by simp) (by simp [prodTip]) t hmem

/-- Witness for the amended C1: on the concrete day `exOddsC2`, Ticket #2
is emitted with three legs and total at least 1.85. -/
theorem c1_amended_witness :
    MIN_T2_TOTAL ≤ (assemble_ticket2_allow_all 2 6 exOddsC2 exFxsC2).2 ∧
    2 ≤ (assemble_ticket2_allow_all 2 6 exOddsC2 exFxsC2).1.length := by
  have h := c1_amended.1 2 6 exOddsC2 exFxsC2 (by decide)
  exact ⟨h.1, h.2.1⟩

end TicketSpec

namespace TicketSpec

/-- C2 corrected: `build_tickets_and_reasoning` assembles Ticket #1 and
Ticket #2 independently from the same day's fixtures — no fixture is
removed from any candidate pool between the two, and their fixture-id sets
need not be disjoint (see the counterexample). What does hold of a run:
it emits at most two tickets, every emitted ticket has a non-empty leg
list, and each one is exactly the Ticket #1 or the Ticket #2 assembly
result. -/
theorem c2_amended (allowIds : List Nat) (legsMin legsMax : Nat)
    (oddsOf : Nat → Slot) (fixtures : List Fixture) :
    (build_tickets_and_reasoning allowIds legsMin legsMax oddsOf
      fixtures).length ≤ 2 ∧
    ∀ t ∈ build_tickets_and_reasoning allowIds legsMin legsMax oddsOf
        fixtures,
      t.1 ≠ [] ∧
      (t = assemble_ticket1 allowIds legsMin legsMax oddsOf fixtures ∨
        t = assemble_ticket2_allow_all legsMin legsMax oddsOf fixtures) := by
  constructor
  · exact le_trans (List.length_filter_le _ _) (by simp)
  · intro t ht
    rw [build_tickets_and_reasoning, List.mem_filter] at ht
    refine ⟨?_, ?_⟩
    · have := of_decide_eq_true ht.2
      simpa [List.isEmpty_iff] using this
    · rcases List.mem_cons.mp ht.1 with h | h
      · exact Or.inl h
      · exact Or.inr (List.mem_singleton.mp h)

/-- Witness for the amended C2 on the concrete day `exOddsC2`. -/
theorem c2_amended_witness :
    (build_tickets_and_reasoning [10] 2 6 exOddsC2 exFxsC2).length ≤ 2 ∧
    (assemble_ticket1 [10] 2 6 exOddsC2 exFxsC2).1 ≠ [] := by
  have h := c2_amended [10] 2 6 exOddsC2 exFxsC2
  exact ⟨h.1, (h.2 (assemble_ticket1 [10] 2 6 exOddsC2 exFxsC2)
    (by decide)).1⟩

end TicketSpec

namespace TicketSpec

theorem stepOutcome_mono (d : Market) (oc : RawOutcome) (name : String)
    (w : ℚ) (h : lookupA d name = some w) :
    ∃ w', lookupA (stepOutcome d oc) name = some w' ∧ w ≤ w' := by
  simp only [stepOutcome]
  cases ht : tryFloat (outcomeOdd oc) with
  | none => exact ⟨w, h, le_refl w⟩
  | some v =>
    dsimp only
    by_cases hn : pyStrip oc.name = ""
    · rw [if_pos hn]
      exact ⟨w, h, le_refl w⟩
    · rw [if_neg hn]
      cases hl : lookupA d (pyStrip oc.name) with
      | none =>
        dsimp only
        by_cases heq : pyStrip oc.name = name
        · rw [heq] at hl
          rw [hl] at h
          cases h
        · rw [lookupA_setA, if_neg heq]
          exact ⟨w, h, le_refl w⟩
      | some w0 =>
        dsimp only
        by_cases hgt : v > w0
        · rw [if_pos hgt, lookupA_setA]
          by_cases heq : pyStrip oc.name = name
          · rw [if_pos heq]
            rw [heq] at hl
            rw [h] at hl
            injection hl with hw
            exact ⟨v, rfl, le_of_lt (hw ▸ hgt)⟩
          · rw [if_neg heq]
            exact ⟨w, h, le_refl w⟩
        · rw [if_neg hgt]
          exact ⟨w, h, le_refl w⟩

theorem stepOutcome_self (d : Market) (oc : RawOutcome) (v : ℚ)
    (hv : tryFloat (outcomeOdd oc) = some v) (hn : pyStrip oc.name ≠ "") :
    ∃ w', lookupA (stepOutcome d oc) (pyStrip oc.name) = some w' ∧
      v ≤ w' := by
  simp only [stepOutcome]
  rw [hv]
  dsimp only
  rw [if_neg hn]
  cases hl : lookupA d (pyStrip oc.name) with
  | none =>
    dsimp only
    rw [lookupA_setA, if_pos rfl]
    exact ⟨v, rfl, le_refl v⟩
  | some w0 =>
    dsimp only
    by_cases hgt : v > w0
    · rw [if_pos hgt, lookupA_setA, if_pos rfl]
      exact ⟨v, rfl, le_refl v⟩
    · rw [if_neg hgt]
      exact ⟨w0, hl, le_of_not_lt hgt⟩

theorem foldOutcomes_mono (os : List RawOutcome) :
    ∀ (dst : Market) (name : String) (w : ℚ), lookupA dst name = some w →
      ∃ w', lookupA (foldOutcomes os dst) name = some w' ∧ w ≤ w' := by
  induction os with
  | nil => exact fun dst name w h => ⟨w, h, le_refl w⟩
  | cons oc t ih =>
    intro dst name w h
    rcases stepOutcome_mono dst oc name w h with ⟨w1, h1, hw1⟩
    rcases ih (stepOutcome dst oc) name w1 h1 with ⟨w2, h2, hw2⟩
    exact ⟨w2, h2, le_trans hw1 hw2⟩

theorem foldOutcomes_dominates (os : List RawOutcome) :
    ∀ (dst : Market) (oc : RawOutcome), oc ∈ os →
      ∀ v, tryFloat (outcomeOdd oc) = some v → pyStrip oc.name ≠ "" →
        ∃ w', lookupA (foldOutcomes os dst) (pyStrip oc.name) = some w' ∧
          v ≤ w' := by
  induction os with
  | nil => intro dst oc h; exact absurd h (List.not_mem_nil oc)
  | cons oc0 t ih =>
    intro dst oc hmem v hv hn
    rcases List.mem_cons.mp hmem with rfl | hmem'
    · rcases stepOutcome_self dst oc v hv hn with ⟨w1, h1, hw1⟩
      rcases foldOutcomes_mono t (stepOutcome dst oc) _ w1 h1 with
        ⟨w2, h2, hw2⟩
      exact ⟨w2, h2, le_trans hw1 hw2⟩
    · exact ih (stepOutcome dst oc0) oc hmem' v hv hn

/-- C3 corrected: the telegram collector `_collect_odds_table` does retain
the maximum — a later strictly higher price overwrites the stored entry, a
lower or equal one never does, the stored price never decreases across
processing, and it ends at least every parsed duplicate's price; on the
duplicate prices [1.40, 1.55, 1.30] it yields 1.55. The all_tips
normalizer `_min_odd_in_bet`, however, retains the MINIMUM (see the
counterexample), so the claim is false of it. -/
theorem c3_amended :
    (∀ (d : Market) (oc : RawOutcome) (v w0 : ℚ),
      tryFloat (outcomeOdd oc) = some v → pyStrip oc.name ≠ "" →
      lookupA d (pyStrip oc.name) = some w0 →
      (w0 < v → lookupA (stepOutcome d oc) (pyStrip oc.name) = some v) ∧
      (v ≤ w0 → lookupA (stepOutcome d oc) (pyStrip oc.name) = some w0)) ∧
    (∀ (os : List RawOutcome) (dst : Market) (name : String) (w : ℚ),
      lookupA dst name = some w →
      ∃ w', lookupA (foldOutcomes os dst) name = some w' ∧ w ≤ w') ∧
    (∀ (os : List RawOutcome) (dst : Market) (oc : RawOutcome), oc ∈ os →
      ∀ v, tryFloat (outcomeOdd oc) = some v → pyStrip oc.name ≠ "" →
      ∃ w', lookupA (foldOutcomes os dst) (pyStrip oc.name) = some w' ∧
        v ≤ w') ∧
    lookup2 ((lookupA (collect_odds_table exItemsDup) 1).getD [])
      "Over/Under" "Over 2.5" = some (mkRat 155 100) := by
  refine ⟨?_, foldOutcomes_mono, foldOutcomes_dominates, by decide⟩
  intro d oc v w0 hv hn hl
  constructor
  · intro hgt
    simp only [stepOutcome]
    rw [hv]
    dsimp only
    rw [if_neg hn, hl]
    dsimp only
    rw [if_pos hgt, lookupA_setA, if_pos rfl]
  · intro hle
    simp only [stepOutcome]
    rw [hv]
    dsimp only
    rw [if_neg hn, hl]
    dsimp only
    rw [if_neg (not_lt_of_le hle)]
    exact hl

/-- Witness for the amended C3: a later 1.55 overwrites a stored 1.40. -/
theorem c3_amended_witness :
    lookupA
      (stepOutcome [("Over 2.5", mkRat 140 100)]
        ⟨"Over 2.5", some (mkRat 155 100), none⟩)
      (pyStrip "Over 2.5") = some (mkRat 155 100) := by
  exact (c3_amended.1 [("Over 2.5", mkRat 140 100)]
    ⟨"Over 2.5", some (mkRat 155 100), none⟩ (mkRat 155 100)
    (mkRat 140 100) (by decide) (by decide) (by decide)).1 (by decide)

end TicketSpec

namespace TicketSpec

/-! ## Keys written by the bets-shape normalization (claim C4) -/

theorem mem_key_setA {slot : Slot} {key : String} {dst : Market}
    {k : String} {mv : Market} (h : (k, mv) ∈ setA slot key dst) :
    (∃ mv', (k, mv') ∈ slot) ∨ k = key := by
  rcases setA_mem slot key dst (k, mv) h with h' | h'
  · exact Or.inl ⟨mv, h'⟩
  · exact Or.inr (congrArg Prod.fst h')

theorem processOu1st_keys {slot : Slot} {values : List RawValue}
    {k : String} {mv : Market} (h : (k, mv) ∈ processOu1st slot values) :
    (∃ mv', (k, mv') ∈ slot) ∨ k = "1st Half Goals" := by
  simp only [processOu1st] at h
  exact mem_key_setA h

theorem processMW_keys {slot : Slot} {values : List RawValue} {k : String}
    {mv : Market} (h : (k, mv) ∈ processMW slot values) :
    (∃ mv', (k, mv') ∈ slot) ∨ k = "Match Winner" := by
  simp only [processMW] at h
  exact mem_key_setA h

theorem processDC_keys {slot : Slot} {values : List RawValue} {k : String}
    {mv : Market} (h : (k, mv) ∈ processDC slot values) :
    (∃ mv', (k, mv') ∈ slot) ∨ k = "Double Chance" := by
  simp only [processDC] at h
  exact mem_key_setA h

theorem processBTTS_keys {slot : Slot} {values : List RawValue}
    {k : String} {mv : Market} (h : (k, mv) ∈ processBTTS slot values) :
    (∃ mv', (k, mv') ∈ slot) ∨ k = "Both Teams To Score" := by
  simp only [processBTTS] at h
  exact mem_key_setA h

theorem processOU_keys {slot : Slot} {values : List RawValue} {k : String}
    {mv : Market} (h : (k, mv) ∈ processOU slot values) :
    (∃ mv', (k, mv') ∈ slot) ∨ k = "Over/Under" := by
  simp only [processOU] at h
  exact mem_key_setA h

theorem processTTG_keys {key : String} {slot : Slot}
    {values : List RawValue} {k : String} {mv : Market}
    (h : (k, mv) ∈ processTTG key slot values) :
    (∃ mv', (k, mv') ∈ slot) ∨ k = key := by
  simp only [processTTG] at h
  exact mem_key_setA h

theorem ttgStep_keys {sl : Slot} {val : RawValue} {k : String}
    {mv : Market} (h : (k, mv) ∈ ttgStep sl val) :
    (∃ mv', (k, mv') ∈ sl) ∨ k = "Home Team Goals" ∨
      k = "Away Team Goals" := by
  simp only [ttgStep] at h
  split_ifs at h with h05 hh ha
  · cases ht : tryFloat val.odd with
    | some v =>
      rw [ht] at h
      dsimp only at h
      rcases mem_key_setA h with ⟨mv', h1⟩ | h1
      · rcases mem_key_setA h1 with h2 | h2
        · exact Or.inl h2
        · exact Or.inr (Or.inl h2)
      · exact Or.inr (Or.inl h1)
    | none =>
      rw [ht] at h
      dsimp only at h
      rcases mem_key_setA h with h1 | h1
      · exact Or.inl h1
      · exact Or.inr (Or.inl h1)
  · cases ht : tryFloat val.odd with
    | some v =>
      rw [ht] at h
      dsimp only at h
      rcases mem_key_setA h with ⟨mv', h1⟩ | h1
      · rcases mem_key_setA h1 with h2 | h2
        · exact Or.inl h2
        · exact Or.inr (Or.inr h2)
      · exact Or.inr (Or.inr h1)
    | none =>
      rw [ht] at h
      dsimp only at h
      rcases mem_key_setA h with h1 | h1
      · exact Or.inl h1
      · exact Or.inr (Or.inr h1)
  · exact Or.inl ⟨mv, h⟩
  · exact Or.inl ⟨mv, h⟩

theorem processTTGGeneric_keys {values : List RawValue} :
    ∀ {slot : Slot} {k : String} {mv : Market},
      (k, mv) ∈ processTTGGeneric slot values →
      (∃ mv', (k, mv') ∈ slot) ∨ k = "Home Team Goals" ∨
        k = "Away Team Goals" := by
  induction values with
  | nil => exact fun h => Or.inl ⟨_, h⟩
  | cons val t ih =>
    intro slot k mv h
    rcases ih h with ⟨mv', h1⟩ | h1
    · rcases ttgStep_keys h1 with h2 | h2
      · exact Or.inl h2
      · exact Or.inr h2
    · exact Or.inr h1

theorem dispatchOu1st {slot : Slot} {values : List RawValue} {k : String}
    {mv : Market} (h : (k, mv) ∈ processOu1st slot values) :
    (∃ mv', (k, mv') ∈ slot) ∨ k ∈ CANONICAL_MARKETS := by
  rcases processOu1st_keys h with h1 | h1
  · exact Or.inl h1
  · exact Or.inr (by rw [h1]; decide)

theorem dispatchMW {slot : Slot} {values : List RawValue} {k : String}
    {mv : Market} (h : (k, mv) ∈ processMW slot values) :
    (∃ mv', (k, mv') ∈ slot) ∨ k ∈ CANONICAL_MARKETS := by
  rcases processMW_keys h with h1 | h1
  · exact Or.inl h1
  · exact Or.inr (by rw [h1]; decide)

theorem dispatchDC {slot : Slot} {values : List RawValue} {k : String}
    {mv : Market} (h : (k, mv) ∈ processDC slot values) :
    (∃ mv', (k, mv') ∈ slot) ∨ k ∈ CANONICAL_MARKETS := by
  rcases processDC_keys h with h1 | h1
  · exact Or.inl h1
  · exact Or.inr (by rw [h1]; decide)

theorem dispatchBTTS {slot : Slot} {values : List RawValue} {k : String}
    {mv : Market} (h : (k, mv) ∈ processBTTS slot values) :
    (∃ mv', (k, mv') ∈ slot) ∨ k ∈ CANONICAL_MARKETS := by
  rcases processBTTS_keys h with h1 | h1
  · exact Or.inl h1
  · exact Or.inr (by rw [h1]; decide)

theorem dispatchOU {slot : Slot} {values : List RawValue} {k : String}
    {mv : Market} (h : (k, mv) ∈ processOU slot values) :
    (∃ mv', (k, mv') ∈ slot) ∨ k ∈ CANONICAL_MARKETS := by
  rcases processOU_keys h with h1 | h1
  · exact Or.inl h1
  · exact Or.inr (by rw [h1]; decide)

theorem dispatchTTG {key : String} (hk : key ∈ CANONICAL_MARKETS)
    {slot : Slot} {values : List RawValue} {k : String} {mv : Market}
    (h : (k, mv) ∈ processTTG key slot values) :
    (∃ mv', (k, mv') ∈ slot) ∨ k ∈ CANONICAL_MARKETS := by
  rcases processTTG_keys h with h1 | h1
  · exact Or.inl h1
  · exact Or.inr (h1 ▸ hk)

theorem dispatchTTGGeneric {slot : Slot} {values : List RawValue}
    {k : String} {mv : Market}
    (h : (k, mv) ∈ processTTGGeneric slot values) :
    (∃ mv', (k, mv') ∈ slot) ∨ k ∈ CANONICAL_MARKETS := by
  rcases processTTGGeneric_keys h with h1 | h1
  · exact Or.inl h1
  · rcases h1 with h1 | h1 <;> exact Or.inr (by rw [h1]; decide)

set_option maxHeartbeats 2000000 in
theorem processBet_keys {slot : Slot} {bet : RawBet} {k : String}
    {mv : Market} (h : (k, mv) ∈ processBet slot bet) :
    (∃ mv', (k, mv') ∈ slot) ∨ k ∈ CANONICAL_MARKETS := by
  simp only [processBet] at h
  split_ifs at h
  all_goals first
    | exact Or.inl ⟨mv, h⟩
    | exact dispatchOu1st h
    | exact dispatchMW h
    | exact dispatchDC h
    | exact dispatchBTTS h
    | exact dispatchOU h
    | exact dispatchTTG (by decide) h
    | exact dispatchTTGGeneric h

theorem betsFold_keys (bets : List RawBet) :
    ∀ {slot : Slot} {k : String} {mv : Market},
      (k, mv) ∈ bets.foldl processBet slot →
      (∃ mv', (k, mv') ∈ slot) ∨ k ∈ CANONICAL_MARKETS := by
  induction bets with
  | nil => exact fun h => Or.inl ⟨_, h⟩
  | cons bet t ih =>
    intro slot k mv h
    rcases ih h with ⟨mv', h1⟩ | h1
    · rcases processBet_keys h1 with h2 | h2
      · exact Or.inl h2
      · exact Or.inr h2
    · exact Or.inr h1

theorem bmsFold_keys (bms : List RawBookmaker)
    (hbms : ∀ bm ∈ bms, bm.markets = []) :
    ∀ {slot : Slot} {k : String} {mv : Market},
      (k, mv) ∈ bms.foldl processBookmaker slot →
      (∃ mv', (k, mv') ∈ slot) ∨ k ∈ CANONICAL_MARKETS := by
  induction bms with
  | nil => exact fun h => Or.inl ⟨_, h⟩
  | cons bm t ih =>
    intro slot k mv h
    rcases ih (fun b hb => hbms b (List.mem_cons_of_mem _ hb)) h with
      ⟨mv', h1⟩ | h1
    · rw [processBookmaker, hbms bm (List.mem_cons_self bm t),
        List.foldl_nil] at h1
      rcases betsFold_keys bm.bets h1 with h2 | h2
      · exact Or.inl h2
      · exact Or.inr h2
    · exact Or.inr h1

theorem collectFold_keys (items : List RawItem) :
    ∀ (out : OddsTable),
      (∀ it ∈ items, ∀ bm ∈ it.bookmakers, bm.markets = []) →
      (∀ fid slot, lookupA out fid = some slot →
        ∀ k mv, (k, mv) ∈ slot → k ∈ CANONICAL_MARKETS) →
      ∀ fid slot, lookupA (items.foldl collectStep out) fid = some slot →
        ∀ k mv, (k, mv) ∈ slot → k ∈ CANONICAL_MARKETS := by
  induction items with
  | nil => exact fun out _ hout => hout
  | cons it t ih =>
    intro out hshape hout
    refine ih (collectStep out it)
      (fun it' h' => hshape it' (List.mem_cons_of_mem _ h')) ?_
    intro fid slot hl k mv hmem
    simp only [collectStep] at hl
    cases hfx : it.fixtureId with
    | none =>
      rw [hfx] at hl
      exact hout fid slot hl k mv hmem
    | some n =>
      rw [hfx] at hl
      cases n with
      | zero => exact hout fid slot hl k mv hmem
      | succ m =>
        have hl' : lookupA (setA out (m + 1)
            (it.bookmakers.foldl processBookmaker
              ((lookupA out (m + 1)).getD []))) fid = some slot := hl
        rw [lookupA_setA] at hl'
        by_cases heq : (m + 1 : Nat) = fid
        · rw [if_pos heq] at hl'
          injection hl' with hslot
          subst hslot
          rcases bmsFold_keys it.bookmakers
            (hshape it (List.mem_cons_self it t)) hmem with ⟨mv', hbase⟩ | hc
          · cases hlook : lookupA out (m + 1) with
            | none =>
              rw [hlook] at hbase
              simp at hbase
            | some s0 =>
              rw [hlook] at hbase
              exact hout _ s0 hlook k mv' hbase
          · exact hc
        · rw [if_neg heq] at hl'
          exact hout fid slot hl' k mv hmem

theorem canonical_no_forbidden :
    ∀ k ∈ CANONICAL_MARKETS, ∀ b ∈ FORBIDDEN_SUBSTRS,
      pyIn b (pyLower k) = false := by decide

end TicketSpec

namespace TicketSpec

/-! ## Forbidden market names contribute nothing in the bets shape -/

theorem processBet_forbidden (slot : Slot) (bet : RawBet)
    (hb : ∃ b ∈ FORBIDDEN_SUBSTRS,
      pyIn b (pyLower (pyStrip bet.name)) = true) :
    processBet slot bet = slot := by
  rcases hb with ⟨b, hbmem, hbin⟩
  have hany : FORBIDDEN_SUBSTRS.any
      (fun b' => pyIn b' (pyLower (pyStrip bet.name))) = true :=
    List.any_eq_true.mpr ⟨b, hbmem, hbin⟩
  have hff : is_fulltime_main (pyStrip bet.name) = false := by
    simp [is_fulltime_main, hany]
  have hou : ∀ s ∈ OU1ST_NAMES, ∀ b' ∈ FORBIDDEN_SUBSTRS,
      pyIn b' (pyLower s) = false := by decide
  have hnotmem : pyStrip bet.name ∉ OU1ST_NAMES := fun hmem => by
    have hcontra := hou _ hmem b hbmem
    rw [hbin] at hcontra
    cases hcontra
  simp only [processBet]
  by_cases hraw : pyStrip bet.name = ""
  · rw [if_pos hraw]
  · rw [if_neg hraw, if_neg hnotmem, if_pos (by simp [hff])]

theorem betsFold_forbidden (bets : List RawBet)
    (hb : ∀ bet ∈ bets, ∃ b ∈ FORBIDDEN_SUBSTRS,
      pyIn b (pyLower (pyStrip bet.name)) = true) :
    ∀ slot : Slot, bets.foldl processBet slot = slot := by
  induction bets with
  | nil => intro slot; rfl
  | cons bet t ih =>
    intro slot
    show List.foldl processBet (processBet slot bet) t = slot
    rw [processBet_forbidden slot bet (hb bet (List.mem_cons_self bet t))]
    exact ih (fun b hb' => hb b (List.mem_cons_of_mem _ hb')) slot

theorem bmsFold_forbidden (bms : List RawBookmaker)
    (hm : ∀ bm ∈ bms, bm.markets = [])
    (hb : ∀ bm ∈ bms, ∀ bet ∈ bm.bets, ∃ b ∈ FORBIDDEN_SUBSTRS,
      pyIn b (pyLower (pyStrip bet.name)) = true) :
    ∀ slot : Slot, bms.foldl processBookmaker slot = slot := by
  induction bms with
  | nil => intro slot; rfl
  | cons bm t ih =>
    intro slot
    show List.foldl processBookmaker (processBookmaker slot bm) t = slot
    have h1 : processBookmaker slot bm = slot := by
      rw [processBookmaker, hm bm (List.mem_cons_self bm t),
        List.foldl_nil]
      exact betsFold_forbidden bm.bets (hb bm (List.mem_cons_self bm t))
        slot
    rw [h1]
    exact ih (fun a ha => hm a (List.mem_cons_of_mem _ ha))
      (fun a ha => hb a (List.mem_cons_of_mem _ ha)) slot

theorem collectFold_empty (items : List RawItem) :
    ∀ out : OddsTable,
      (∀ it ∈ items, ∀ bm ∈ it.bookmakers, bm.markets = []) →
      (∀ it ∈ items, ∀ bm ∈ it.bookmakers, ∀ bet ∈ bm.bets,
        ∃ b ∈ FORBIDDEN_SUBSTRS,
          pyIn b (pyLower (pyStrip bet.name)) = true) →
      (∀ fid slot, lookupA out fid = some slot → slot = []) →
      ∀ fid slot, lookupA (items.foldl collectStep out) fid = some slot →
        slot = [] := by
  induction items with
  | nil => exact fun out _ _ hout => hout
  | cons it t ih =>
    intro out hshape hforb hout
    refine ih (collectStep out it)
      (fun a ha => hshape a (List.mem_cons_of_mem _ ha))
      (fun a ha => hforb a (List.mem_cons_of_mem _ ha)) ?_
    intro fid slot hl
    simp only [collectStep] at hl
    cases hfx : it.fixtureId with
    | none =>
      rw [hfx] at hl
      exact hout fid slot hl
    | some n =>
      rw [hfx] at hl
      cases n with
      | zero => exact hout fid slot hl
      | succ m =>
        have hfold : it.bookmakers.foldl processBookmaker
            ((lookupA out (m + 1)).getD []) = [] := by
          have hbase : (lookupA out (m + 1)).getD [] = ([] : Slot) := by
            cases hlook : lookupA out (m + 1) with
            | none => rfl
            | some s0 => simpa using hout _ s0 hlook
          rw [hbase]
          exact bmsFold_forbidden it.bookmakers
            (hshape it (List.mem_cons_self it t))
            (hforb it (List.mem_cons_self it t)) []
        have hl' : lookupA (setA out (m + 1)
            (it.bookmakers.foldl processBookmaker
              ((lookupA out (m + 1)).getD []))) fid = some slot := hl
        rw [hfold, lookupA_setA] at hl'
        by_cases heq : (m + 1 : Nat) = fid
        · rw [if_pos heq] at hl'
          injection hl' with h
          exact h.symm
        · rw [if_neg heq] at hl'
          exact hout fid slot hl'

/-- C4 corrected: in the older `bets/values` shape the claim holds — the
normalization writes only the seven canonical market keys, none of which
contains a forbidden substring, and a payload whose market names all
contain a forbidden substring yields an empty per-fixture table. In the
newer `markets/outcomes` shape no market-name filtering happens at all, so
a forbidden market passes through verbatim (see the counterexample). -/
theorem c4_amended (items : List RawItem) (hshape : betsShape items) :
    (∀ fid slot, lookupA (collect_odds_table items) fid = some slot →
      ∀ k mv, (k, mv) ∈ slot →
        k ∈ CANONICAL_MARKETS ∧
        ∀ b ∈ FORBIDDEN_SUBSTRS, pyIn b (pyLower k) = false) ∧
    ((∀ it ∈ items, ∀ bm ∈ it.bookmakers, ∀ bet ∈ bm.bets,
        ∃ b ∈ FORBIDDEN_SUBSTRS,
          pyIn b (pyLower (pyStrip bet.name)) = true) →
      ∀ fid slot, lookupA (collect_odds_table items) fid = some slot →
        slot = []) := by
  constructor
  · intro fid slot hl k mv hmem
    have hcanon : k ∈ CANONICAL_MARKETS := by
      refine collectFold_keys items [] hshape ?_ fid slot hl k mv hmem
      intro fid' slot' hl'
      cases hl'
    exact ⟨hcanon, canonical_no_forbidden k hcanon⟩
  · intro hforb fid slot hl
    refine collectFold_empty items [] hshape hforb ?_ fid slot hl
    intro fid' slot' hl'
    cases hl'

/-- Witness for the amended C4: a Match Winner bet in the bets shape lands
under the canonical `Match Winner` key, and an all-forbidden bets-shape
payload yields an empty slot for its fixture. -/
theorem c4_amended_witness :
    "Match Winner" ∈ CANONICAL_MARKETS ∧
    ∀ b ∈ FORBIDDEN_SUBSTRS, pyIn b (pyLower "Match Winner") = false := by
  have h := (c4_amended exItemsBetsMW
    (by simp [betsShape, exItemsBetsMW])).1 3
    [("Match Winner", [("Home", mkRat 150 100), ("Away", 3)])] (by decide)
    "Match Winner" [("Home", mkRat 150 100), ("Away", 3)] (by decide)
  exact h

end TicketSpec

namespace TicketSpec

/-! ## One leg per fixture in Ticket #2 (claim C5) -/

theorem filterMap_fid_sublist (g : Fixture → Option Leg)
    (hg : ∀ f l, g f = some l → l.fid = f.fid) :
    ∀ fixtures : List Fixture,
      ((fixtures.filterMap g).map Leg.fid).Sublist
        (fixtures.map Fixture.fid)
  | [] => by simp
  | f :: t => by
    cases hgf : g f with
    | none =>
      rw [List.filterMap_cons_none hgf, List.map_cons]
      exact (filterMap_fid_sublist g hg t).cons _
    | some leg =>
      rw [List.filterMap_cons_some hgf, List.map_cons, List.map_cons,
        hg f leg hgf]
      exact (filterMap_fid_sublist g hg t).cons₂ _

theorem t2_pool_fids_sublist (oddsOf : Nat → Slot)
    (fixtures : List Fixture) :
    ((t2_pool oddsOf fixtures).map Leg.fid).Sublist
      (fixtures.map Fixture.fid) := by
  simp only [t2_pool]
  split
  · refine filterMap_fid_sublist _ ?_ fixtures
    intro f l h
    rcases Option.map_eq_some'.mp h with ⟨p, _, rfl⟩
    rfl
  · refine filterMap_fid_sublist _ ?_ fixtures
    intro f l h
    rcases Option.map_eq_some'.mp h with ⟨p, _, rfl⟩
    rfl

theorem greedyLoop_shape (legsMin legsMax : Nat) (target : ℚ) :
    ∀ (pool t0 : List Leg) (tot : ℚ),
      ∃ tk, (greedyLoop legsMin legsMax target pool t0 tot).1 = t0 ++ tk ∧
        tk.Sublist pool
  | [], t0, tot => ⟨[], by simp [greedyLoop], List.nil_sublist []⟩
  | leg :: rest, t0, tot => by
    simp only [greedyLoop]
    by_cases hmax : legsMax ≤ t0.length
    · rw [if_pos hmax]
      exact ⟨[], by simp, List.nil_sublist _⟩
    · rw [if_neg hmax]
      by_cases hstop : legsMin ≤ (t0 ++ [leg]).length ∧
          target ≤ tot * leg.odd
      · rw [if_pos hstop]
        exact ⟨[leg], rfl, by simp⟩
      · rw [if_neg hstop]
        rcases greedyLoop_shape legsMin legsMax target rest (t0 ++ [leg])
          (tot * leg.odd) with ⟨tk, h1, h2⟩
        exact ⟨leg :: tk, by rw [h1]; simp, h2.cons₂ leg⟩

theorem t2Fix_nodup (legsMin legsMax : Nat) (target : ℚ) (P : List Leg)
    (hinj : ∀ x ∈ P, ∀ y ∈ P, x.fid = y.fid → x = y) :
    ∀ (l t : List Leg) (tot : ℚ),
      (∀ x ∈ l, x ∈ P) → (∀ x ∈ t, x ∈ P) → (t.map Leg.fid).Nodup →
      ((t2Fix legsMin legsMax target l t tot).1.map Leg.fid).Nodup ∧
        ∀ x ∈ (t2Fix legsMin legsMax target l t tot).1, x ∈ P
  | [], t, tot, _, ht, hnd => ⟨hnd, ht⟩
  | leg :: rest, t, tot, hl, ht, hnd => by
    simp only [t2Fix]
    by_cases hmem : leg ∈ t
    · rw [if_pos hmem]
      exact t2Fix_nodup legsMin legsMax target P hinj rest t tot
        (fun x hx => hl x (List.mem_cons_of_mem _ hx)) ht hnd
    · rw [if_neg hmem]
      by_cases hmax : legsMax ≤ t.length
      · rw [if_pos hmax]
        exact ⟨hnd, ht⟩
      · rw [if_neg hmax]
        have htm : ∀ x ∈ t ++ [leg], x ∈ P := by
          intro x hx
          rcases List.mem_append.mp hx with h | h
          · exact ht x h
          · rcases List.mem_singleton.mp h with rfl
            exact hl _ (List.mem_cons_self _ _)
        have hnd' : ((t ++ [leg]).map Leg.fid).Nodup := by
          rw [List.map_append]
          refine List.Nodup.append hnd (by simp) ?_
          intro a ha hb
          simp only [List.map_cons, List.map_nil, List.mem_singleton]
            at hb
          subst hb
          rcases List.mem_map.mp ha with ⟨x, hx, hfx⟩
          have hx_eq : x = leg :=
            hinj x (ht x hx) leg (hl leg (List.mem_cons_self _ _)) hfx
          exact hmem (hx_eq ▸ hx)
        by_cases hstop : target ≤ tot * leg.odd ∧
            legsMin ≤ (t ++ [leg]).length
        · rw [if_pos hstop]
          exact ⟨hnd', htm⟩
        · rw [if_neg hstop]
          exact t2Fix_nodup legsMin legsMax target P hinj rest (t ++ [leg])
            (tot * leg.odd) (fun x hx => hl x (List.mem_cons_of_mem _ hx))
            htm hnd'

theorem t2_finish_nodup (legsMin legsMax : Nat) (pool : List Leg)
    (hpool : (pool.map Leg.fid).Nodup) :
    ((t2_finish legsMin legsMax pool).1.map Leg.fid).Nodup := by
  have hinj : ∀ x ∈ pool, ∀ y ∈ pool, x.fid = y.fid → x = y :=
    List.inj_on_of_nodup_map hpool
  have hperma : (sortPoolAsc pool).Perm pool :=
    List.perm_insertionSort _ pool
  have hpermd : (sortPoolDesc pool).Perm pool :=
    List.perm_insertionSort _ pool
  rcases greedyLoop_shape legsMin legsMax MIN_T2_TOTAL (sortPoolAsc pool)
    [] 1 with ⟨tk, hshape, hsub⟩
  have hr1mem : ∀ x ∈ (greedyLoop legsMin legsMax MIN_T2_TOTAL
      (sortPoolAsc pool) [] 1).1, x ∈ pool := by
    intro x hx
    rw [hshape, List.nil_append] at hx
    exact hperma.mem_iff.mp (hsub.subset hx)
  have hr1nd : (((greedyLoop legsMin legsMax MIN_T2_TOTAL
      (sortPoolAsc pool) [] 1).1).map Leg.fid).Nodup := by
    rw [hshape, List.nil_append]
    refine List.Nodup.sublist (hsub.map Leg.fid) ?_
    exact ((hperma.map Leg.fid).nodup_iff).mpr hpool
  simp only [t2_finish]
  set r1 := greedyLoop legsMin legsMax MIN_T2_TOTAL (sortPoolAsc pool) [] 1
    with hr1def
  set r2 := (if r1.2 < MIN_T2_TOTAL ∨ r1.1.length < legsMin then
      t2Fix legsMin legsMax MIN_T2_TOTAL (sortPoolDesc pool) r1.1 r1.2
    else r1) with hr2def
  have hr2nd : (r2.1.map Leg.fid).Nodup := by
    rw [hr2def]
    split
    · exact (t2Fix_nodup legsMin legsMax MIN_T2_TOTAL pool hinj
        (sortPoolDesc pool) r1.1 r1.2
        (fun x hx => hpermd.mem_iff.mp hx) hr1mem hr1nd).1
    · exact hr1nd
  split
  · simp
  · exact hr2nd

/-- C5 corrected: tickets built by `assemble_ticket2_allow_all` do have
pairwise-distinct fixture ids whenever the day's fixtures are distinct —
its single pool pass keeps at most one leg per fixture and the corrective
pass skips legs already taken. `assemble_ticket1`'s relaxation tiers,
however, append re-scans of fixtures that already contributed a leg, and
`build_picks` can emit two picks for one fixture, so the claim fails
there (see the counterexample). -/
theorem c5_amended (legsMin legsMax : Nat) (oddsOf : Nat → Slot)
    (fixtures : List Fixture)
    (hnd : (fixtures.map Fixture.fid).Nodup) :
    ((assemble_ticket2_allow_all legsMin legsMax oddsOf
      fixtures).1.map Leg.fid).Nodup := by
  have hpool : ((t2_pool oddsOf fixtures).map Leg.fid).Nodup :=
    List.Nodup.sublist (t2_pool_fids_sublist oddsOf fixtures) hnd
  simp only [assemble_ticket2_allow_all]
  split
  · simp
  · exact t2_finish_nodup legsMin legsMax _ hpool

/-- Witness for the amended C5 on the concrete day `exOddsC2`: Ticket #2's
three legs use three distinct fixtures. -/
theorem c5_amended_witness :
    (((assemble_ticket2_allow_all 2 6 exOddsC2 exFxsC2).1.map
      Leg.fid).Nodup) :=
  c5_amended 2 6 exOddsC2 exFxsC2 (by decide)

end TicketSpec
